import Mathlib

/-!
Verification development for the tss-ecdsa protocol core: a shallow
embedding, in Lean 4, of the reliable-broadcast participant, the key
generation participant, the PiMod and PiLog zero-knowledge proof
verifiers, and the presign round-three message acceptance logic, together
with theorems settling the specification claims about them.

External collaborator primitives (elliptic-curve group, Paillier
cryptosystem, ring-Pedersen commitments, hash-based transcripts) are kept
abstract, exactly as the specification declares them out of scope: they
appear as function-valued parameters bundled in environment structures.
Canonical serialization is modelled by carrying typed payload values on
messages (the specification demands that serialization be canonical, i.e.
injective with a fixed byte encoding, so values stand for their bytes).
-/

namespace TssEcdsa

/-- Participant identifier (opaque, equality-comparable in the source). -/
abbrev Pid := Nat

/-- Session identifier (opaque, equality-comparable in the source). -/
abbrev Identifier := Nat

/-- Raw payload bytes (`Vec<u8>` in the source). -/
abbrev Bytes := List Nat

/-- The crate-wide error taxonomy (`errors.rs` variants referenced by the
embedded code; `ProtocolAlreadyTerminated` is a `CallerError` in the source
but is surfaced through the same `Result` channel). -/
inductive InternalError where
  | MisroutedMessage
  | InternalInvariantFailed
  | FailedToVerifyProof
  | ProtocolError
  | CouldNotGenerateProof
  | ProtocolAlreadyTerminated
  | DeserializationFailed
  deriving DecidableEq, Repr

/-- Message types of the keygen protocol family. -/
inductive KeygenMessageType where
  | Ready
  | R1CommitHash
  | R2Decommit
  | R3Proof
  deriving DecidableEq, Repr

/-- Message types of the broadcast subprotocol. -/
inductive BroadcastMessageType where
  | Disperse
  | Redisperse
  deriving DecidableEq, Repr

/-- Message types of the presign protocol family. -/
inductive PresignMessageType where
  | Ready
  | RoundOne
  | RoundTwo
  | RoundThree
  deriving DecidableEq, Repr

/-- The closed sum of message types (`messages.rs`). -/
inductive MessageType where
  | Keygen : KeygenMessageType → MessageType
  | Broadcast : BroadcastMessageType → MessageType
  | Presign : PresignMessageType → MessageType
  | Auxinfo
  deriving DecidableEq, Repr

/-- The logical payload class being broadcast (`broadcast/participant.rs`). -/
inductive BroadcastTag where
  | AuxinfoR1CommitHash
  | KeyGenR1CommitHash
  | PresignR1Ciphertexts
  deriving DecidableEq, Repr

/-- Unique key for one vote cell (`broadcast/participant.rs`). -/
structure BroadcastIndex where
  tag : BroadcastTag
  leader : Pid
  other_id : Pid
  deriving DecidableEq, Repr

/-- The attested broadcast content plus metadata sufficient to re-emit the
inner message upon agreement (`broadcast/data.rs`, as used by
`broadcast/participant.rs`). -/
structure BroadcastData where
  leader : Pid
  tag : BroadcastTag
  message_type : MessageType
  data : Bytes
  deriving DecidableEq, Repr

/-- A 32-byte random value (`rid` in keygen); bytes beyond index 31 never
arise, and the bytewise operations below act positionally. -/
abbrev Rid := List Nat

/-- Hash-commitment bytes (`KeygenCommit`, `V_i` in the paper). -/
abbrev KeygenCommit := Bytes

/-- Curve point carrier. The elliptic-curve group is an external
collaborator; points are opaque values and every operation on them is an
abstract environment function. -/
abbrev CurvePointRep := Nat

/-- Public key share: a participant id together with a curve point
(`keygen/keyshare.rs`). -/
structure KeySharePublic where
  participant_id : Pid
  point : CurvePointRep
  deriving DecidableEq, Repr

/-- Private key share carrier (a scalar; opaque here). -/
abbrev KeySharePrivateRep := Nat

/-- Schnorr precommitment carrier (`A_i` plus its scalar witness; opaque,
consumed only by the abstract PiSch functions). -/
abbrev PiSchPrecommitRep := Nat

/-- Schnorr proof carrier (opaque, checked only by the abstract PiSch
verify function). -/
abbrev PiSchProofRep := Nat

/-- The keygen decommitment (`keygen/keygen_commit.rs`):
session id, sender id, public key share, Schnorr precommitment point and
the 32-byte `rid`. -/
structure KeygenDecommit where
  session_id : Identifier
  sender_id : Pid
  pk : KeySharePublic
  precom : PiSchPrecommitRep
  rid : Rid
  deriving DecidableEq, Repr

/-- Typed message payloads. The wire format is a canonical serialization of
the round-specific body; canonicality (fixed field order, injectivity)
lets the embedding carry the value itself in place of its bytes.
`wrappedBroadcast` is the composition envelope wrapping a broadcast-level
message inside an outer protocol message. -/
inductive Payload where
  | empty
  | bytes (bs : Bytes)
  | broadcastData (d : BroadcastData)
  | decommit (d : KeygenDecommit)
  | schnorrProof (p : PiSchProofRep)
  | wrappedBroadcast (bt : BroadcastMessageType) (d : BroadcastData)
  deriving DecidableEq, Repr

/-- A protocol message (`messages.rs`):
`message_type`, session id, sender (`from` in the source; `from` is a Lean
keyword), recipient (`to`) and the payload. -/
structure Message where
  message_type : MessageType
  session_id : Identifier
  sender : Pid
  recipient : Pid
  payload : Payload
  deriving DecidableEq, Repr

/-- Broadcast output: agreed tag plus the reconstructed inner message
(`broadcast/participant.rs`). -/
structure BroadcastOutput where
  tag : BroadcastTag
  msg : Message
  deriving DecidableEq, Repr

/-- Outcome of processing one message (`participant.rs`). -/
inductive ProcessOutcome (O : Type) where
  | Incomplete
  | Processed (messages : List Message)
  | Terminated (output : O)
  | TerminatedForThisParticipant (output : O) (messages : List Message)
  deriving DecidableEq, Repr

/-- Modelled from the spec: `ProcessOutcome::with_messages` from the
participant framework (`participant.rs`, not under `src/`): attaches
additional outgoing messages to an outcome; an empty batch leaves the
outcome unchanged. -/
def ProcessOutcome.with_messages {O : Type} : ProcessOutcome O → List Message → ProcessOutcome O
  | o, [] => o
  | .Incomplete, ms => .Processed ms
  | .Processed ms1, ms => .Processed (ms1 ++ ms)
  | .Terminated o, ms => .TerminatedForThisParticipant o ms
  | .TerminatedForThisParticipant o ms1, ms => .TerminatedForThisParticipant o (ms1 ++ ms)

/-- The outgoing messages carried by an outcome. -/
def ProcessOutcome.messages {O : Type} : ProcessOutcome O → List Message
  | .Incomplete => []
  | .Processed ms => ms
  | .Terminated _ => []
  | .TerminatedForThisParticipant _ ms => ms

/-! ## Reliable-broadcast participant (`broadcast/participant.rs`) -/

/-- Vote storage: the `Votes` slot of `LocalStorage` holds, per session, a
map `BroadcastIndex → Vec<u8>`; the embedding keys the association list by
the pair (session id, index). -/
abbrev VoteStore := List ((Identifier × BroadcastIndex) × Bytes)

/-- Lookup in the vote map. -/
def lookupVotes (vs : VoteStore) (k : Identifier × BroadcastIndex) : Option Bytes :=
  (vs.find? (fun kv => kv.1 = k)).map (·.2)

/-- The broadcast participant's state. `dispersed_tags` models the
`run_only_once_per_tag` guard of the participant framework (modelled from
the spec: each participant emits its `Redisperse` set at most once per
(session, tag)). -/
structure BroadcastParticipant where
  id : Pid
  other_participant_ids : List Pid
  votes : VoteStore
  dispersed_tags : List (Identifier × BroadcastTag)
  deriving DecidableEq, Repr

/-- `BroadcastData::from_message`: deserialize the payload as a
`BroadcastData` (canonical serialization modelled by the typed payload). -/
def BroadcastData.from_message (message : Message) : Except InternalError BroadcastData :=
  match message.payload with
  | .broadcastData d => .ok d
  | _ => .error .DeserializationFailed

/-- The vote-collection loop of `process_vote`: walk the other participant
ids in order and return the stored payloads, or `none` at the first
missing vote (the source returns `Incomplete` there). -/
def collectAll (f : Pid → Option Bytes) : List Pid → Option (List Bytes)
  | [] => some []
  | oid :: rest =>
    match f oid with
    | none => none
    | some v => (collectAll f rest).map (fun vs => v :: vs)

/-- `BroadcastParticipant::process_vote`: record the vote under
`BroadcastIndex (tag, leader, voter)` unless already present; once votes
exist for every other participant under (tag, leader), tally payload
frequencies and terminate with the reconstructed inner message when some
payload was voted by every other participant, failing with `ProtocolError`
otherwise. State mutations persist even when the tally fails, as in the
source (the storage insert happens before the error return). -/
def BroadcastParticipant.process_vote (st : BroadcastParticipant) (data : BroadcastData)
    (sid : Identifier) (voter : Pid) :
    BroadcastParticipant × Except InternalError (ProcessOutcome BroadcastOutput) :=
  let idx : BroadcastIndex := ⟨data.tag, data.leader, voter⟩
  if (lookupVotes st.votes (sid, idx)).isSome then
    (st, .ok .Incomplete)
  else
    let votes' : VoteStore := ((sid, idx), data.data) :: st.votes
    let st' := { st with votes := votes' }
    match collectAll (fun oid => lookupVotes votes' (sid, ⟨data.tag, data.leader, oid⟩))
        st.other_participant_ids with
    | none => (st', .ok .Incomplete)
    | some redispersed_messages =>
      match redispersed_messages.find?
          (fun k => redispersed_messages.count k = st.other_participant_ids.length) with
      | some k =>
        let msg : Message := ⟨data.message_type, sid, data.leader, st.id, .bytes k⟩
        (st', .ok (.Terminated ⟨data.tag, msg⟩))
      | none => (st', .error .ProtocolError)

/-- `BroadcastParticipant::gen_round_two_msgs`: re-emit the (canonically
re-serialized) `BroadcastData` as `Redisperse` to every other participant
except the `leader` argument (which the caller passes as `message.from()`). -/
def BroadcastParticipant.gen_round_two_msgs (st : BroadcastParticipant) (message : Message)
    (leader : Pid) : Except InternalError (List Message) :=
  match BroadcastData.from_message message with
  | .error e => .error e
  | .ok data =>
    let others_minus_leader := st.other_participant_ids.filter (fun id => id ≠ leader)
    .ok (others_minus_leader.map (fun other_participant_id =>
      ⟨.Broadcast .Redisperse, message.session_id, st.id, other_participant_id,
        .broadcastData data⟩))

/-- `BroadcastParticipant::handle_round_one_msg`: process the `Disperse`
vote, then — once per (session, tag), via `run_only_once_per_tag`
(modelled from the spec) — generate the `Redisperse` batch. -/
def BroadcastParticipant.handle_round_one_msg (st : BroadcastParticipant) (message : Message) :
    BroadcastParticipant × Except InternalError (ProcessOutcome BroadcastOutput) :=
  match BroadcastData.from_message message with
  | .error e => (st, .error e)
  | .ok data =>
    let tag := data.tag
    let (st1, voteRes) := st.process_vote data message.session_id message.sender
    match voteRes with
    | .error e => (st1, .error e)
    | .ok redisperse_outcome =>
      if (message.session_id, tag) ∈ st1.dispersed_tags then
        (st1, .ok (redisperse_outcome.with_messages []))
      else
        match st1.gen_round_two_msgs message message.sender with
        | .error e => (st1, .error e)
        | .ok disperse_messages =>
          ({ st1 with dispersed_tags := (message.session_id, tag) :: st1.dispersed_tags },
            .ok (redisperse_outcome.with_messages disperse_messages))

/-- `BroadcastParticipant::handle_round_two_msg`: ignore self-echoes
(embedded leader equal to self), otherwise record the vote. -/
def BroadcastParticipant.handle_round_two_msg (st : BroadcastParticipant) (message : Message) :
    BroadcastParticipant × Except InternalError (ProcessOutcome BroadcastOutput) :=
  match BroadcastData.from_message message with
  | .error e => (st, .error e)
  | .ok data =>
    if data.leader = st.id then
      (st, .ok .Incomplete)
    else
      st.process_vote data message.session_id message.sender

/-- `BroadcastParticipant::process_message`: dispatch by broadcast message
type; anything else is misrouted. -/
def BroadcastParticipant.process_message (st : BroadcastParticipant) (message : Message) :
    BroadcastParticipant × Except InternalError (ProcessOutcome BroadcastOutput) :=
  match message.message_type with
  | .Broadcast .Disperse => st.handle_round_one_msg message
  | .Broadcast .Redisperse => st.handle_round_two_msg message
  | _ => (st, .error .MisroutedMessage)

/-- `BroadcastParticipant::gen_round_one_msgs`: wrap the payload in a
`BroadcastData` with self as leader and produce one `Disperse` message per
other participant. -/
def BroadcastParticipant.gen_round_one_msgs (st : BroadcastParticipant)
    (message_type : MessageType) (data : Bytes) (sid : Identifier) (tag : BroadcastTag) :
    List Message :=
  let b_data : BroadcastData := ⟨st.id, tag, message_type, data⟩
  st.other_participant_ids.map (fun other_participant_id =>
    ⟨.Broadcast .Disperse, sid, st.id, other_participant_id, .broadcastData b_data⟩)

/-! ## PiMod: Paillier-Blum modulus proof (`zkp/pimod.rs`) -/

/-- One parallel repetition of the PiMod proof. `BigNumber` values are
arbitrary-precision signed integers, embedded as `Int`; `a` and `b` are
`usize` fields, embedded as `Nat`. -/
structure PiModProofElements where
  x : Int
  a : Nat
  b : Nat
  z : Int
  y : Int
  deriving DecidableEq, Repr

/-- The PiMod proof: the Jacobi-symbol-(-1) base `w` plus λ elements. -/
structure PiModProof where
  w : Int
  elements : List PiModProofElements
  deriving DecidableEq, Repr

/-- `BigNumber::modpow` with natural exponent: `a ^ e` reduced into
`[0, n)` (for `n > 0`; `Int.emod` is the Euclidean remainder). -/
def modpow (a : Int) (e : Nat) (n : Int) : Int :=
  (a ^ e) % n

/-- `y_prime_from_y`: compute `y' = (-1)^a * w^b * y (mod N)` exactly as
the source does: multiply by `w` (reduced) when `b = 1`, then negate
modulo `N` when `a = 1`; for `a = b = 0` the value `y` is returned
unreduced. -/
def y_prime_from_y (y w : Int) (a b : Nat) (N : Int) : Int :=
  let y1 := if b = 1 then (y * w) % N else y
  if a = 1 then (-y1) % N else y1

/-- The per-element body of `PiModProof::verify`'s loop, checking the
element against the re-derived Fiat-Shamir challenge `y_chal`. -/
def pimodVerifyElement (N : Nat) (w : Int) (y_chal : Nat) (el : PiModProofElements) :
    Except InternalError Unit :=
  if el.y ≠ (y_chal : Int) then .error .FailedToVerifyProof
  else if el.y ≠ modpow el.z N (N : Int) then .error .FailedToVerifyProof
  else if el.a ≠ 0 ∧ el.a ≠ 1 then .error .FailedToVerifyProof
  else if el.b ≠ 0 ∧ el.b ≠ 1 then .error .FailedToVerifyProof
  else if modpow el.x 4 (N : Int) ≠ y_prime_from_y el.y w el.a el.b (N : Int) then
    .error .FailedToVerifyProof
  else .ok ()

/-- The element loop of `PiModProof::verify`: the `i`-th element is
checked against the `i`-th challenge drawn from the transcript stream. -/
def pimodVerifyLoop (N : Nat) (w : Int) (ys : Nat → Nat) :
    Nat → List PiModProofElements → Except InternalError Unit
  | _, [] => .ok ()
  | i, el :: rest =>
    match pimodVerifyElement N w (ys i) el with
    | .error e => .error e
    | .ok _ => pimodVerifyLoop N w ys (i + 1) rest

/-- `PiModProof::verify`. The Fiat-Shamir transcript is an external
collaborator: after `CommonInput` and `w` are appended, it yields a
deterministic stream of challenges uniform in `[0, N)`; that stream is the
parameter `ys` (the `i`-th draw is `ys i`). `lam` is the crate's
`SOUNDNESS_PARAMETER` (`parameters.rs`, not under `src/`; kept as a
parameter). `BigNumber::is_prime` is embedded as `Nat.Prime`. -/
def pimodVerify (lam : Nat) (ys : Nat → Nat) (N : Nat) (pf : PiModProof) :
    Except InternalError Unit :=
  if pf.elements.length ≠ lam then .error .FailedToVerifyProof
  else if N % 2 = 0 then .error .FailedToVerifyProof
  else if N.Prime then .error .FailedToVerifyProof
  else pimodVerifyLoop N pf.w ys 0 pf.elements

/-- The five per-element conditions the claim lists, phrased over the
embedded code's own arithmetic helpers. -/
def pimodElementChecks (N : Nat) (w : Int) (y_chal : Nat) (el : PiModProofElements) : Prop :=
  el.y = (y_chal : Int) ∧
  el.y = modpow el.z N (N : Int) ∧
  (el.a = 0 ∨ el.a = 1) ∧
  (el.b = 0 ∨ el.b = 1) ∧
  modpow el.x 4 (N : Int) = y_prime_from_y el.y w el.a el.b (N : Int)

instance (N : Nat) (w : Int) (y_chal : Nat) (el : PiModProofElements) :
    Decidable (pimodElementChecks N w y_chal el) := by
  unfold pimodElementChecks; infer_instance

/-! ## PiLog: discrete-log/Paillier equality proof (`zkp/pilog.rs`)

The Paillier cryptosystem, elliptic-curve group and ring-Pedersen scheme
are external collaborators; their carriers and operations are abstract
fields of an environment. Operations written against a fixed environment
correspond to the single (prover key, verifier scheme, curve) setup used
in one prove/verify call. -/

/-- Abstract collaborator environment for PiLog: carriers for Paillier
ciphertexts (`Ct`), curve points (`Pt`), ring-Pedersen commitments (`Cm`),
Paillier nonces (`Nonce`) and ring-Pedersen randomness (`Rand`), together
with the operations and equality tests the proof uses, and the
Fiat-Shamir challenge function `chal` (the value
`plusminus_bn_random_from_transcript` yields after the common input and
the four prover commitments are appended to a fresh transcript). -/
structure PiLogEnv : Type 1 where
  Ct : Type
  Pt : Type
  Cm : Type
  Nonce : Type
  Rand : Type
  encrypt_with_nonce : Int → Nonce → Ct
  multiply_and_add : Int → Ct → Ct → Ct
  mask : Nonce → Nonce → Int → Nonce
  ptAdd : Pt → Pt → Pt
  smul : Pt → Int → Pt
  reconstruct : Int → Rand → Cm
  combine : Cm → Cm → Int → Cm
  commitOf : Int → Rand → Cm
  maskRand : Rand → Rand → Int → Rand
  ctEq : Ct → Ct → Bool
  ptEq : Pt → Pt → Bool
  cmEq : Cm → Cm → Bool
  chal : Ct → Pt → Pt → Cm → Ct → Pt → Cm → Int

/-- PiLog common input: claimed ciphertext `C`, claimed discrete-log
commitment `X` and the group generator `g` (the ring-Pedersen scheme and
the prover's encryption key live in the environment). -/
structure PiLogCommonInput (E : PiLogEnv) where
  ciphertext : E.Ct
  dlog_commit : E.Pt
  generator : E.Pt

/-- The PiLog proof object: `(S, A, Y, D, e, z1, z2, z3)`. -/
structure PiLogProofS (E : PiLogEnv) where
  plaintext_commit : E.Cm
  mask_ciphertext : E.Ct
  mask_dlog_commit : E.Pt
  mask_commit : E.Cm
  challenge : Int
  plaintext_response : Int
  nonce_response : E.Nonce
  plaintext_commit_response : E.Rand

/-- `generate_challenge`: Fiat-Shamir over the common input and the four
prover commitments, in the source's append order. -/
def generate_challenge (E : PiLogEnv) (input : PiLogCommonInput E)
    (plaintext_commit : E.Cm) (mask_encryption : E.Ct) (mask_dlog_commit : E.Pt)
    (mask_commit : E.Cm) : Int :=
  E.chal input.ciphertext input.dlog_commit input.generator
    plaintext_commit mask_encryption mask_dlog_commit mask_commit

/-- Modelled from the spec: `utils::within_bound_by_size` (`utils.rs` is
not under `src/`): the absolute value is at most `2^bound`. -/
def within_bound_by_size (z : Int) (bound : Nat) : Bool :=
  z.natAbs ≤ 2 ^ bound

/-- `PiLogProof::prove`. The values the source samples from the RNG are
explicit arguments: the mask `α` (sampled from `± 2^{ELL+EPSILON}`), the
Paillier nonce `r` of the mask encryption, and the ring-Pedersen
randomness `μ` (for the plaintext commitment, `ELL` bits) and `γ` (for
the mask commitment, `ELL+EPSILON` bits). -/
def pilogProve (E : PiLogEnv) (input : PiLogCommonInput E)
    (plaintext : Int) (nonce : E.Nonce) (α : Int) (r : E.Nonce) (μ γ : E.Rand) :
    PiLogProofS E :=
  let plaintext_commit := E.commitOf plaintext μ
  let mask_ciphertext := E.encrypt_with_nonce α r
  let mask_dlog_commit := E.smul input.generator α
  let mask_commit := E.commitOf α γ
  let challenge :=
    generate_challenge E input plaintext_commit mask_ciphertext mask_dlog_commit mask_commit
  { plaintext_commit := plaintext_commit
    mask_ciphertext := mask_ciphertext
    mask_dlog_commit := mask_dlog_commit
    mask_commit := mask_commit
    challenge := challenge
    plaintext_response := α + challenge * plaintext
    nonce_response := E.mask nonce r challenge
    plaintext_commit_response := E.maskRand μ γ challenge }

/-- `PiLogProof::verify`: the five checks in source order, failing with
`FailedToVerifyProof` at the first that does not hold. -/
def pilogVerify (E : PiLogEnv) (ELL EPSILON : Nat) (input : PiLogCommonInput E)
    (pf : PiLogProofS E) : Except InternalError Unit :=
  let challenge := generate_challenge E input pf.plaintext_commit pf.mask_ciphertext
    pf.mask_dlog_commit pf.mask_commit
  if challenge ≠ pf.challenge then .error .FailedToVerifyProof
  else if E.ctEq (E.encrypt_with_nonce pf.plaintext_response pf.nonce_response)
      (E.multiply_and_add pf.challenge input.ciphertext pf.mask_ciphertext) = false then
    .error .FailedToVerifyProof
  else if E.ptEq (E.smul input.generator pf.plaintext_response)
      (E.ptAdd pf.mask_dlog_commit (E.smul input.dlog_commit pf.challenge)) = false then
    .error .FailedToVerifyProof
  else if E.cmEq (E.reconstruct pf.plaintext_response pf.plaintext_commit_response)
      (E.combine pf.mask_commit pf.plaintext_commit pf.challenge) = false then
    .error .FailedToVerifyProof
  else if within_bound_by_size pf.plaintext_response (ELL + EPSILON) = false then
    .error .FailedToVerifyProof
  else .ok ()

/-- A concrete environment instantiating the abstract collaborators over
integers with trivial nonces and commitment randomness, satisfying the
homomorphic contracts of the specification, with the all-zero challenge
function. Used for concrete evaluations of the PiLog development. -/
@[reducible]
def intPiLogEnv : PiLogEnv where
  Ct := Int
  Pt := Int
  Cm := Int
  Nonce := Unit
  Rand := Unit
  encrypt_with_nonce := fun m _ => m
  multiply_and_add := fun e c a => e * c + a
  mask := fun _ _ _ => ()
  ptAdd := fun a b => a + b
  smul := fun p s => p * s
  reconstruct := fun z _ => z
  combine := fun d s e => d + s * e
  commitOf := fun x _ => x
  maskRand := fun _ _ _ => ()
  ctEq := fun a b => a == b
  ptEq := fun a b => a == b
  cmEq := fun a b => a == b
  chal := fun _ _ _ _ _ _ _ => 0

/-! ## Presign round three (`presign/round_three.rs`) -/

/-- Presign round-three `Public`: `delta`, `Delta`, the `PiLogProof`
`psi_double_prime` and `Gamma`. The scalar `delta` is opaque here. -/
structure PresignRoundThreePublic (E : PiLogEnv) where
  delta : Int
  Delta : E.Pt
  psi_double_prime : PiLogProofS E
  Gamma : E.Pt

/-- `Public::verify`: build the PiLog common input from the sender's
round-one broadcast ciphertext `K`, this message's `Delta` and `Gamma`
(the receiver's ring-Pedersen scheme and the sender's Paillier key are
the environment), and verify `psi_double_prime` over a fresh transcript. -/
def PresignRoundThreePublic.verify (E : PiLogEnv) (ELL EPSILON : Nat)
    (p : PresignRoundThreePublic E) (K : E.Ct) : Except InternalError Unit :=
  let psi_double_prime_input : PiLogCommonInput E := ⟨K, p.Delta, p.Gamma⟩
  match pilogVerify E ELL EPSILON psi_double_prime_input p.psi_double_prime with
  | .error e => .error e
  | .ok _ => .ok ()

/-- A sample round-three `Public` over `intPiLogEnv` whose embedded proof
is honestly generated for plaintext 0, used for concrete evaluation. -/
def samplePresignPublic : PresignRoundThreePublic intPiLogEnv :=
  ⟨0, 0, pilogProve intPiLogEnv ⟨0, 0, 1⟩ 0 () 0 () () (), 1⟩

/-- `Public::from_message`: reject any message that is not
`Presign(RoundThree)` as misrouted; deserialize the payload (the
deserializer is an external collaborator, passed as `deser`); verify the
embedded proof; return the value only when everything succeeded. -/
def presignRoundThreeFromMessage (E : PiLogEnv) (ELL EPSILON : Nat)
    (deser : Payload → Except InternalError (PresignRoundThreePublic E))
    (message : Message) (K : E.Ct) :
    Except InternalError (PresignRoundThreePublic E) :=
  if message.message_type ≠ .Presign .RoundThree then .error .MisroutedMessage
  else
    match deser message.payload with
    | .error e => .error e
    | .ok round_three_public =>
      match round_three_public.verify E ELL EPSILON K with
      | .error e => .error e
      | .ok _ => .ok round_three_public

/-! ## Key generation participant (`keygen/participant.rs`)

The participant framework (`participant.rs`, `local_storage.rs`,
`messages.rs`), the keygen commitment hashing (`keygen_commit.rs`), the
Schnorr proof (`zkp/pisch.rs`) and the output assembly
(`keygen/output.rs`) are repository code not under `src/`; the pieces of
them this embedding needs are modelled from the spec and marked as such.
The typed `LocalStorage` is modelled as one association-list field per
`TypeTag` (the spec's §9 "separate strongly-typed fields per slot"
rendering of the same map). -/

/-- Participant status (`participant.rs`, modelled from the spec). -/
inductive Status where
  | NotReady
  | Initialized
  | ParticipantCompletedBroadcast (participants : List Pid)
  | TerminatedSuccessfully
  deriving DecidableEq, Repr

/-- Modelled from the spec: ready gating treats every state after
`NotReady` as ready. -/
def Status.is_ready : Status → Bool
  | .NotReady => false
  | _ => true

/-- Modelled from the spec: the keyed "generation tokens" of the
`run_only_once` guard, one per round-message-generation side effect. -/
inductive OnceKey where
  | RoundOne
  | RoundTwo
  | RoundThree
  deriving DecidableEq, Repr

/-- Modelled from the spec: keygen `Output` (`keygen/output.rs` is not
under `src/`): all public key shares, this participant's private share,
and the agreed 32-byte `rid`. -/
structure Output where
  public_key_shares : List KeySharePublic
  private_key_share : KeySharePrivateRep
  rid : Rid
  deriving DecidableEq, Repr

/-- Typed-storage lookup: the most recent value stored for a participant
id (later stores shadow earlier ones, as map insertion overwrites). -/
def slookup {β : Type} (l : List (Pid × β)) (p : Pid) : Option β :=
  (l.find? (fun kv => kv.1 = p)).map (·.2)

/-- Typed-storage store. -/
def sstore {β : Type} (l : List (Pid × β)) (p : Pid) (v : β) : List (Pid × β) :=
  (p, v) :: l

/-- Typed-storage `contains`. -/
def scontains {β : Type} (l : List (Pid × β)) (p : Pid) : Bool :=
  (slookup l p).isSome

/-- The keygen participant state: identifiers, the typed local storage
slots (`Commit`, `Decommit`, `SchnorrPrecom`, `GlobalRid`,
`PrivateKeyshare`, `PublicKeyshare`), the framework's stash, ready set and
run-once tokens (modelled from the spec), the embedded broadcast
participant, and the protocol status. -/
structure KeygenParticipant where
  sid : Identifier
  id : Pid
  other_participant_ids : List Pid
  commits : List (Pid × KeygenCommit)
  decommits : List (Pid × KeygenDecommit)
  schnorr_precoms : List (Pid × PiSchPrecommitRep)
  global_rid : Option Rid
  private_keyshares : List (Pid × KeySharePrivateRep)
  public_keyshares : List (Pid × KeySharePublic)
  stash : List Message
  ready_ids : List Pid
  once_flags : List OnceKey
  broadcast_participant : BroadcastParticipant
  status : Status
  deriving DecidableEq, Repr

/-- Modelled from the spec: `all_participants` is this participant
together with all others. -/
def KeygenParticipant.all_participants (st : KeygenParticipant) : List Pid :=
  st.id :: st.other_participant_ids

/-- The abstract collaborators keygen consumes: the commitment hash
(`KeygenDecommit::commit`, over the canonical serialization), and the
PiSch prove/verify functions (`zkp/pisch.rs`), with the Schnorr transcript
determined by the 32-byte global `rid` it is built from. -/
structure KeygenEnv where
  hashCommit : KeygenDecommit → KeygenCommit
  pischProve : PiSchPrecommitRep → KeySharePublic → KeySharePrivateRep → Rid → PiSchProofRep
  pischVerify : PiSchProofRep → KeySharePublic → Rid → Bool

/-- The values `gen_round_one_msgs` samples from its RNG: the key share
pair, the Schnorr precommitment, and the 32-byte `rid` contribution. -/
structure KeygenRound1Randomness where
  keyshare_private : KeySharePrivateRep
  keyshare_point : CurvePointRep
  sch_precom : PiSchPrecommitRep
  rid : Rid

/-- Bytewise XOR of two 32-byte values (the source's in-place loop over
`[u8; 32]`). -/
def xor32 (a b : Rid) : Rid :=
  List.zipWith (fun x y => Nat.xor x y) a b

/-- The rid-collection loop of `gen_round_three_msgs`: the stored
decommitment rid of each other participant in order, or `none` at the
first missing decommitment (the source errors there). -/
def collectRids (dec : List (Pid × KeygenDecommit)) : List Pid → Option (List Rid)
  | [] => some []
  | p :: rest =>
    match slookup dec p with
    | none => none
    | some d => (collectRids dec rest).map (fun rs => d.rid :: rs)

/-- The output-collection loop of `handle_round_three_msg`: the stored
public key share of each participant in order, or `none` when one is
missing. -/
def collectShares (pub : List (Pid × KeySharePublic)) : List Pid → Option (List KeySharePublic)
  | [] => some []
  | p :: rest =>
    match slookup pub p with
    | none => none
    | some s => (collectShares pub rest).map (fun ss => s :: ss)

/-- Modelled from the spec: the `Broadcast` trait's `broadcast` method
(`participant.rs` is not under `src/`): produce the broadcast `Disperse`
batch and wrap each message in the composition envelope under the outer
message type. -/
def KeygenParticipant.broadcast (st : KeygenParticipant) (message_type : MessageType)
    (data : Bytes) (sid : Identifier) (tag : BroadcastTag) : List Message :=
  (st.broadcast_participant.gen_round_one_msgs message_type data sid tag).map (fun m =>
    match m.message_type, m.payload with
    | .Broadcast bt, .broadcastData d =>
      ⟨message_type, m.session_id, m.sender, m.recipient, .wrappedBroadcast bt d⟩
    | _, _ => m)

/-- `KeygenParticipant::gen_round_one_msgs`: generate the key share, the
Schnorr precommitment and the decommitment; hash the decommitment into
the commitment `V_i`; store all five slots for self; broadcast `V_i`
under tag `KeyGenR1CommitHash`. -/
def KeygenParticipant.gen_round_one_msgs (env : KeygenEnv) (fresh : KeygenRound1Randomness)
    (st : KeygenParticipant) (sid : Identifier) :
    KeygenParticipant × Except InternalError (List Message) :=
  let keyshare_private := fresh.keyshare_private
  let keyshare_public : KeySharePublic := ⟨st.id, fresh.keyshare_point⟩
  let sch_precom := fresh.sch_precom
  let decom : KeygenDecommit := ⟨sid, st.id, keyshare_public, sch_precom, fresh.rid⟩
  let com := env.hashCommit decom
  let st1 := { st with
    commits := sstore st.commits st.id com
    decommits := sstore st.decommits st.id decom
    schnorr_precoms := sstore st.schnorr_precoms st.id sch_precom
    private_keyshares := sstore st.private_keyshares st.id keyshare_private
    public_keyshares := sstore st.public_keyshares st.id keyshare_public }
  let messages := st1.broadcast (.Keygen .R1CommitHash) com sid .KeyGenR1CommitHash
  (st1, .ok messages)

/-- `KeygenParticipant::gen_round_two_msgs`: if our own round-one state is
missing, generate round one first (guarded by `run_only_once`, modelled
from the spec); then send our stored decommitment to every other
participant. A missing own decommitment is an internal-invariant error. -/
def KeygenParticipant.gen_round_two_msgs (env : KeygenEnv) (fresh : KeygenRound1Randomness)
    (st : KeygenParticipant) (sid : Identifier) :
    KeygenParticipant × Except InternalError (List Message) :=
  let (st1, res1) :=
    if scontains st.public_keyshares st.id then (st, Except.ok [])
    else if OnceKey.RoundOne ∈ st.once_flags then (st, Except.ok [])
    else KeygenParticipant.gen_round_one_msgs env fresh
      { st with once_flags := .RoundOne :: st.once_flags } sid
  match res1 with
  | .error e => (st1, .error e)
  | .ok messages =>
    match slookup st1.decommits st1.id with
    | none => (st1, .error .InternalInvariantFailed)
    | some decom =>
      let more := st1.other_participant_ids.map (fun oid =>
        (⟨.Keygen .R2Decommit, st1.sid, st1.id, oid, .decommit decom⟩ : Message))
      (st1, .ok (messages ++ more))

/-- `KeygenParticipant::gen_round_three_msgs`: XOR the stored decommitted
rids of all parties (starting from our own) into `global_rid`, store it,
and send the Schnorr proof — produced from the stored precommitment over
the rid-bound transcript — to every other participant. -/
def KeygenParticipant.gen_round_three_msgs (env : KeygenEnv) (st : KeygenParticipant) :
    KeygenParticipant × Except InternalError (List Message) :=
  match collectRids st.decommits st.other_participant_ids with
  | none => (st, .error .InternalInvariantFailed)
  | some rids =>
    match slookup st.decommits st.id with
    | none => (st, .error .InternalInvariantFailed)
    | some my_decom =>
      let global_rid := rids.foldl xor32 my_decom.rid
      let st1 := { st with global_rid := some global_rid }
      match slookup st1.schnorr_precoms st1.id, slookup st1.public_keyshares st1.id,
          slookup st1.private_keyshares st1.id with
      | some precom, some my_pk, some my_sk =>
        let proof := env.pischProve precom my_pk my_sk global_rid
        (st1, .ok (st1.other_participant_ids.map (fun oid =>
          (⟨.Keygen .R3Proof, st1.sid, st1.id, oid, .schnorrProof proof⟩ : Message))))
      | _, _, _ => (st1, .error .InternalInvariantFailed)

/-- `KeygenParticipant::handle_round_three_msg`: stash while `GlobalRid`
is absent; verify the sender's Schnorr proof against their decommitted
public key share over the rid-bound transcript; store the share on
success; when shares exist for every participant, remove the collected
material, mark `TerminatedSuccessfully`, and terminate with the output
whose `rid` is the stored global rid. -/
def KeygenParticipant.handle_round_three_msg (env : KeygenEnv) (st : KeygenParticipant)
    (message : Message) : KeygenParticipant × Except InternalError (ProcessOutcome Output) :=
  match st.global_rid with
  | none => ({ st with stash := st.stash ++ [message] }, .ok .Incomplete)
  | some global_rid =>
    match message.payload with
    | .schnorrProof proof =>
      match slookup st.decommits message.sender with
      | none => (st, .error .InternalInvariantFailed)
      | some decom =>
        if env.pischVerify proof decom.pk global_rid = false then
          (st, .error .FailedToVerifyProof)
        else
          let st1 := { st with
            public_keyshares := sstore st.public_keyshares message.sender decom.pk }
          if st1.all_participants.all (fun p => scontains st1.public_keyshares p) then
            match collectShares st1.public_keyshares st1.all_participants,
                slookup st1.private_keyshares st1.id with
            | some public_key_shares, some private_key_share =>
              let st2 := { st1 with
                public_keyshares :=
                  st1.public_keyshares.filter (fun kv => kv.1 ∉ st1.all_participants)
                private_keyshares := st1.private_keyshares.filter (fun kv => kv.1 ≠ st1.id)
                status := .TerminatedSuccessfully }
              (st2, .ok (.Terminated ⟨public_key_shares, private_key_share, global_rid⟩))
            | _, _ => (st1, .error .InternalInvariantFailed)
          else (st1, .ok .Incomplete)
    | _ => (st, .error .DeserializationFailed)

/-- The error-propagating fold the source's
`fetch_messages(...).iter().map(handle_round_three).collect::<Result<_>>`
performs: state mutations made before an error persist. -/
def handleAllRoundThree (env : KeygenEnv) :
    KeygenParticipant → List Message →
      KeygenParticipant × Except InternalError (List (ProcessOutcome Output))
  | st, [] => (st, .ok [])
  | st, m :: rest =>
    match KeygenParticipant.handle_round_three_msg env st m with
    | (st1, .error e) => (st1, .error e)
    | (st1, .ok o) =>
      match handleAllRoundThree env st1 rest with
      | (st2, .error e) => (st2, .error e)
      | (st2, .ok os) => (st2, .ok (o :: os))

/-- Modelled from the spec: `ProcessOutcome::collect_with_messages` from
the participant framework: merge the sub-outcomes' messages with the
given batch; at most one termination may be present. -/
def ProcessOutcome.collect_with_messages {O : Type} (outcomes : List (ProcessOutcome O))
    (messages : List Message) : Except InternalError (ProcessOutcome O) :=
  let msgs := (outcomes.map ProcessOutcome.messages).join ++ messages
  let outputs := outcomes.filterMap (fun o => match o with
    | .Terminated out => some out
    | .TerminatedForThisParticipant out _ => some out
    | _ => none)
  match outputs with
  | [] => .ok (if msgs.isEmpty then .Incomplete else .Processed msgs)
  | [out] => .ok (.TerminatedForThisParticipant out msgs)
  | _ => .error .InternalInvariantFailed

/-- `KeygenParticipant::handle_round_two_msg`: stash until commitments
exist for all participants; validate the received decommitment against
the stored commitment (`KeygenDecommit::verify`, modelled from the spec:
the recomputed hash must equal the stored commitment and the embedded
session and sender ids must match, failing with `ProtocolError`); store
`Decommit(sender)` only on success; once decommitments exist for all
participants, generate round three once and replay stashed round-three
messages. -/
def KeygenParticipant.handle_round_two_msg (env : KeygenEnv) (st : KeygenParticipant)
    (message : Message) : KeygenParticipant × Except InternalError (ProcessOutcome Output) :=
  if st.all_participants.all (fun p => scontains st.commits p) = false then
    ({ st with stash := st.stash ++ [message] }, .ok .Incomplete)
  else
    match message.payload with
    | .decommit decom =>
      match slookup st.commits message.sender with
      | none => (st, .error .InternalInvariantFailed)
      | some com =>
        if env.hashCommit decom = com ∧ decom.session_id = message.session_id ∧
            decom.sender_id = message.sender then
          let st1 := { st with decommits := sstore st.decommits message.sender decom }
          if st1.all_participants.all (fun p => scontains st1.decommits p) then
            let (st2, res3) :=
              if OnceKey.RoundThree ∈ st1.once_flags then (st1, Except.ok [])
              else KeygenParticipant.gen_round_three_msgs env
                { st1 with once_flags := .RoundThree :: st1.once_flags }
            match res3 with
            | .error e => (st2, .error e)
            | .ok round_three_messages =>
              let fetched := st2.stash.filter (fun m => m.message_type = .Keygen .R3Proof)
              let st3 := { st2 with
                stash := st2.stash.filter (fun m => ¬ (m.message_type = .Keygen .R3Proof)) }
              match handleAllRoundThree env st3 fetched with
              | (st4, .error e) => (st4, .error e)
              | (st4, .ok outcomes) =>
                (st4, ProcessOutcome.collect_with_messages outcomes round_three_messages)
          else (st1, .ok .Incomplete)
        else (st, .error .ProtocolError)
    | _ => (st, .error .DeserializationFailed)

/-- The analogous error-propagating fold over stashed round-two
messages. -/
def handleAllRoundTwo (env : KeygenEnv) :
    KeygenParticipant → List Message →
      KeygenParticipant × Except InternalError (List (ProcessOutcome Output))
  | st, [] => (st, .ok [])
  | st, m :: rest =>
    match KeygenParticipant.handle_round_two_msg env st m with
    | (st1, .error e) => (st1, .error e)
    | (st1, .ok o) =>
      match handleAllRoundTwo env st1 rest with
      | (st2, .error e) => (st2, .error e)
      | (st2, .ok os) => (st2, .ok (o :: os))

/-- `KeygenParticipant::handle_round_one_msg`: accept an agreed broadcast
output (whose tag must be `KeyGenR1CommitHash` — `into_message`, modelled
from the spec), store `Commit(sender)`, and once commitments exist for
every *other* participant (deliberately not `all_participants`, as the
source notes), generate round two once and replay stashed round-two
messages. -/
def KeygenParticipant.handle_round_one_msg (env : KeygenEnv) (fresh : KeygenRound1Randomness)
    (st : KeygenParticipant) (broadcast_message : BroadcastOutput) :
    KeygenParticipant × Except InternalError (ProcessOutcome Output) :=
  if broadcast_message.tag ≠ .KeyGenR1CommitHash then (st, .error .InternalInvariantFailed)
  else
    let message := broadcast_message.msg
    match message.payload with
    | .bytes keygen_commit =>
      let st1 := { st with commits := sstore st.commits message.sender keygen_commit }
      if st1.other_participant_ids.all (fun p => scontains st1.commits p) then
        let (st2, res2) :=
          if OnceKey.RoundTwo ∈ st1.once_flags then (st1, Except.ok [])
          else KeygenParticipant.gen_round_two_msgs env fresh
            { st1 with once_flags := .RoundTwo :: st1.once_flags } message.session_id
        match res2 with
        | .error e => (st2, .error e)
        | .ok round_one_messages =>
          let fetched := st2.stash.filter (fun m => m.message_type = .Keygen .R2Decommit)
          let st3 := { st2 with
            stash := st2.stash.filter (fun m => ¬ (m.message_type = .Keygen .R2Decommit)) }
          match handleAllRoundTwo env st3 fetched with
          | (st4, .error e) => (st4, .error e)
          | (st4, .ok outcomes) =>
            (st4, ProcessOutcome.collect_with_messages outcomes round_one_messages)
      else (st1, .ok .Incomplete)
    | _ => (st, .error .DeserializationFailed)

/-- Map a function over an outcome's outgoing messages. -/
def ProcessOutcome.mapMessages {O : Type} (f : Message → Message) :
    ProcessOutcome O → ProcessOutcome O
  | .Incomplete => .Incomplete
  | .Processed ms => .Processed (ms.map f)
  | .Terminated o => .Terminated o
  | .TerminatedForThisParticipant o ms => .TerminatedForThisParticipant o (ms.map f)

/-- Modelled from the spec: the `Broadcast` trait's `handle_broadcast`
(`participant.rs` is not under `src/`): unwrap the composition envelope,
feed the broadcast-level message to the embedded broadcast participant,
and re-wrap any emitted broadcast messages under the outer type. -/
def KeygenParticipant.handle_broadcast (st : KeygenParticipant) (message : Message) :
    KeygenParticipant × Except InternalError (ProcessOutcome BroadcastOutput) :=
  match message.payload with
  | .wrappedBroadcast bt d =>
    let sub : Message :=
      ⟨.Broadcast bt, message.session_id, message.sender, message.recipient, .broadcastData d⟩
    let (bp, res) := st.broadcast_participant.process_message sub
    let rewrap : Message → Message := fun m =>
      match m.message_type, m.payload with
      | .Broadcast bt2, .broadcastData d2 =>
        ⟨message.message_type, m.session_id, m.sender, m.recipient, .wrappedBroadcast bt2 d2⟩
      | _, _ => m
    ({ st with broadcast_participant := bp },
      match res with
      | .error e => .error e
      | .ok o => .ok (o.mapMessages rewrap))
  | _ => (st, .error .DeserializationFailed)

/-- `KeygenParticipant::handle_ready_msg`: record the sender's readiness
(`process_ready_message`, modelled from the spec: the participant becomes
`Initialized` once every participant is ready), then generate round-one
messages once. -/
def KeygenParticipant.handle_ready_msg (env : KeygenEnv) (fresh : KeygenRound1Randomness)
    (st : KeygenParticipant) (message : Message) :
    KeygenParticipant × Except InternalError (ProcessOutcome Output) :=
  let ready_ids1 :=
    if message.sender ∈ st.ready_ids then st.ready_ids else message.sender :: st.ready_ids
  let status1 :=
    if st.all_participants.all (fun p => p ∈ ready_ids1) then Status.Initialized else st.status
  let st1 := { st with ready_ids := ready_ids1, status := status1 }
  let (st2, res1) :=
    if OnceKey.RoundOne ∈ st1.once_flags then (st1, Except.ok [])
    else KeygenParticipant.gen_round_one_msgs env fresh
      { st1 with once_flags := .RoundOne :: st1.once_flags } message.session_id
  match res1 with
  | .error e => (st2, .error e)
  | .ok round_one_messages =>
    (st2, .ok ((ProcessOutcome.Incomplete).with_messages round_one_messages))

/-- `KeygenParticipant::process_message`: reject everything after
successful termination with `ProtocolAlreadyTerminated`; stash non-Ready
messages while not ready; otherwise dispatch by keygen message type, the
`R1CommitHash` branch running the embedded broadcast and converting a
terminated broadcast into `handle_round_one_msg` (the framework's
`convert`, modelled from the spec); all other types are an internal
invariant failure. -/
def KeygenParticipant.process_message (env : KeygenEnv) (fresh : KeygenRound1Randomness)
    (st : KeygenParticipant) (message : Message) :
    KeygenParticipant × Except InternalError (ProcessOutcome Output) :=
  if st.status = .TerminatedSuccessfully then (st, .error .ProtocolAlreadyTerminated)
  else if st.status.is_ready = false ∧ message.message_type ≠ .Keygen .Ready then
    ({ st with stash := st.stash ++ [message] }, .ok .Incomplete)
  else
    match message.message_type with
    | .Keygen .Ready => KeygenParticipant.handle_ready_msg env fresh st message
    | .Keygen .R1CommitHash =>
      match KeygenParticipant.handle_broadcast st message with
      | (st1, .error e) => (st1, .error e)
      | (st1, .ok bout) =>
        match bout with
        | .Incomplete => (st1, .ok .Incomplete)
        | .Processed ms => (st1, .ok (.Processed ms))
        | .Terminated b => KeygenParticipant.handle_round_one_msg env fresh st1 b
        | .TerminatedForThisParticipant b ms =>
          match KeygenParticipant.handle_round_one_msg env fresh st1 b with
          | (st2, .error e) => (st2, .error e)
          | (st2, .ok o) => (st2, .ok (o.with_messages ms))
    | .Keygen .R2Decommit => KeygenParticipant.handle_round_two_msg env st message
    | .Keygen .R3Proof => KeygenParticipant.handle_round_three_msg env st message
    | _ => (st, .error .InternalInvariantFailed)

/-- A trivial keygen environment for concrete evaluation: the empty-hash
commitment and an always-accepting PiSch verifier. -/
def sampleKeygenEnv : KeygenEnv :=
  ⟨fun _ => [], fun _ _ _ _ => 0, fun _ _ _ => true⟩

/-- Trivial round-one randomness for concrete evaluation. -/
def sampleFresh : KeygenRound1Randomness :=
  ⟨0, 0, 0, List.replicate 32 0⟩

/-- A terminated participant state for concrete evaluation. -/
def terminatedKeygenState : KeygenParticipant :=
  ⟨0, 0, [1], [], [], [], none, [], [], [], [], [], ⟨0, [1], [], []⟩, .TerminatedSuccessfully⟩

/-- Sample decommitment of participant 0 (rid all-ones). -/
def sampleDecommit0 : KeygenDecommit :=
  ⟨0, 0, ⟨0, 0⟩, 0, List.replicate 32 1⟩

/-- Sample decommitment of participant 1 (rid all-twos). -/
def sampleDecommit1 : KeygenDecommit :=
  ⟨0, 1, ⟨1, 0⟩, 0, List.replicate 32 2⟩

/-- A two-party state in which both decommitments (and this participant's
round-one slots) are stored, ready for round three. -/
def roundThreeReadyState : KeygenParticipant :=
  ⟨0, 0, [1], [(0, []), (1, [])], [(0, sampleDecommit0), (1, sampleDecommit1)], [(0, 0)],
    none, [(0, 0)], [(0, ⟨0, 0⟩)], [], [0, 1], [], ⟨0, [1], [], []⟩, .Initialized⟩

/-- A two-party state in which commitments are stored for both parties
but no decommitment yet, as seen by `handle_round_two_msg`. -/
def roundTwoReadyState : KeygenParticipant :=
  ⟨0, 0, [1], [(0, []), (1, [])], [], [], none, [], [], [], [0, 1], [],
    ⟨0, [1], [], []⟩, .Initialized⟩

theorem pimodVerifyElement_ok_iff (N : Nat) (w : Int) (y_chal : Nat) (el : PiModProofElements) :
    pimodVerifyElement N w y_chal el = .ok () ↔ pimodElementChecks N w y_chal el := by
  unfold pimodVerifyElement pimodElementChecks
  split_ifs with h1 h2 h3 h4 h5 <;> simp_all <;> tauto

theorem pimodVerifyElement_cases (N : Nat) (w : Int) (y_chal : Nat) (el : PiModProofElements) :
    pimodVerifyElement N w y_chal el = .ok () ∨
      pimodVerifyElement N w y_chal el = .error .FailedToVerifyProof := by
  unfold pimodVerifyElement
  split_ifs <;> simp

theorem pimodVerifyLoop_ok_iff (N : Nat) (w : Int) (ys : Nat → Nat)
    (els : List PiModProofElements) (i : Nat) :
    pimodVerifyLoop N w ys i els = .ok () ↔
      ∀ j (h : j < els.length), pimodElementChecks N w (ys (i + j)) (els.get ⟨j, h⟩) := by
  induction els generalizing i with
  | nil => simp [pimodVerifyLoop]
  | cons el rest ih =>
    simp only [pimodVerifyLoop]
    cases hel : pimodVerifyElement N w (ys i) el with
    | error e =>
      constructor
      · intro h; simp at h
      · intro h
        exfalso
        have h0 := h 0 (by simp)
        rw [← pimodVerifyElement_ok_iff] at h0
        simp only [Nat.add_zero, List.length_cons, Fin.zero_eta, List.get_cons_zero] at h0
        rw [hel] at h0
        exact absurd h0 (by simp)
    | ok u =>
      cases u
      rw [ih (i + 1)]
      constructor
      · intro h j hj
        match j, hj with
        | 0, _ =>
          simpa using (pimodVerifyElement_ok_iff N w (ys i) el).mp hel
        | (k + 1), hj =>
          have hk : k < rest.length := by simpa using hj
          have hidx : i + (k + 1) = i + 1 + k := by omega
          simpa [hidx] using h k hk
      · intro h k hk
        have hidx : i + 1 + k = i + (k + 1) := by omega
        have := h (k + 1) (by simpa using Nat.succ_lt_succ hk)
        simpa [hidx] using this

theorem pimodVerifyLoop_cases (N : Nat) (w : Int) (ys : Nat → Nat)
    (els : List PiModProofElements) (i : Nat) :
    pimodVerifyLoop N w ys i els = .ok () ∨
      pimodVerifyLoop N w ys i els = .error .FailedToVerifyProof := by
  induction els generalizing i with
  | nil => left; rfl
  | cons el rest ih =>
    simp only [pimodVerifyLoop]
    rcases pimodVerifyElement_cases N w (ys i) el with hel | hel <;> rw [hel]
    · exact ih (i + 1)
    · right; rfl

/-- C2: `PiModProof::verify(input, transcript)` succeeds if and only if the
proof has exactly `SOUNDNESS_PARAMETER` elements, `N` is odd, `N` is not
prime, and every element in order passes the five checks (stored `y`
equals the re-derived transcript challenge, `z^N = y (mod N)`, `a` and `b`
each in 0 or 1, and `x^4 = (-1)^a * w^b * y (mod N)`); and on any failed
check the result is the `FailedToVerifyProof` error. -/
theorem pimod_verify_iff_checks (lam : Nat) (ys : Nat → Nat) (N : Nat) (pf : PiModProof) :
    (pimodVerify lam ys N pf = .ok () ↔
      (pf.elements.length = lam ∧ N % 2 = 1 ∧ ¬ N.Prime ∧
        ∀ j (h : j < pf.elements.length),
          pimodElementChecks N pf.w (ys j) (pf.elements.get ⟨j, h⟩))) ∧
    (pimodVerify lam ys N pf = .ok () ∨
      pimodVerify lam ys N pf = .error .FailedToVerifyProof) := by
  constructor
  · unfold pimodVerify
    split_ifs with h1 h2 h3
    · constructor
      · intro h; simp at h
      · rintro ⟨hlen, -, -, -⟩; exact absurd hlen h1
    · constructor
      · intro h; simp at h
      · rintro ⟨-, hodd, -, -⟩; omega
    · constructor
      · intro h; simp at h
      · rintro ⟨-, -, hnp, -⟩; exact absurd h3 hnp
    · rw [pimodVerifyLoop_ok_iff]
      simp only [Nat.zero_add]
      constructor
      · intro h
        refine ⟨by omega, by omega, h3, h⟩
      · rintro ⟨-, -, -, h⟩; exact h
  · unfold pimodVerify
    split_ifs
    · right; rfl
    · right; rfl
    · right; rfl
    · exact pimodVerifyLoop_cases N pf.w ys pf.elements 0

theorem pimod_verify_iff_checks_witness :
    pimodVerify 2 (fun _ => 1) 15
        ⟨3, [⟨1, 0, 0, 1, 1⟩, ⟨1, 0, 0, 1, 1⟩]⟩ = .ok () :=
  (pimod_verify_iff_checks 2 (fun _ => 1) 15
      ⟨3, [⟨1, 0, 0, 1, 1⟩, ⟨1, 0, 0, 1, 1⟩]⟩).1.mpr
    (by refine ⟨by decide, by decide, by decide, ?_⟩; decide)

/-! ## Broadcast lemmas and claims -/

theorem collectAll_eq_some (f : Pid → Option Bytes) (g : Pid → Bytes) (l : List Pid)
    (h : ∀ a ∈ l, f a = some (g a)) : collectAll f l = some (l.map g) := by
  induction l with
  | nil => rfl
  | cons a rest ih =>
    simp only [collectAll, h a (by simp)]
    rw [ih (fun b hb => h b (by simp [hb]))]
    rfl

theorem collectAll_eq_none (f : Pid → Option Bytes) (l : List Pid) (a : Pid)
    (ha : a ∈ l) (hf : f a = none) : collectAll f l = none := by
  induction l with
  | nil => cases ha
  | cons b rest ih =>
    rcases List.mem_cons.mp ha with rfl | hmem
    · simp [collectAll, hf]
    · cases hb : f b with
      | none => simp [collectAll, hb]
      | some v => simp [collectAll, hb, ih hmem]

theorem count_lt_length_of_mem_ne {α : Type} [BEq α] [LawfulBEq α] (l : List α) (a k : α)
    (ha : a ∈ l) (hne : a ≠ k) : l.count k < l.length := by
  induction l with
  | nil => cases ha
  | cons b rest ih =>
    rcases List.mem_cons.mp ha with rfl | hmem
    · have hle := List.count_le_length k rest
      have hbk : (a == k) = false := by simp [hne]
      simp only [List.count_cons, hbk, List.length_cons, if_false, Bool.false_eq_true]
      omega
    · have hlt := ih hmem
      cases hbk : (b == k) <;>
        simp only [List.count_cons, hbk, List.length_cons, if_false, if_true,
          Bool.false_eq_true] <;>
        omega

theorem find?_count_replicate (n : Nat) (v : Bytes) (hn : 0 < n) :
    (List.replicate n v).find? (fun k => (List.replicate n v).count k = n) = some v := by
  obtain ⟨m, rfl⟩ : ∃ m, n = m + 1 := ⟨n - 1, by omega⟩
  rw [List.replicate_succ, List.find?]
  have hcount : (v :: List.replicate m v).count v = m + 1 := by
    rw [← List.replicate_succ]
    simp [List.count_replicate]
  simp [hcount]

/-- C1: for a fresh (non-duplicate) vote, once `process_vote` has a
recorded vote for every other participant id under `(tag, leader)` in the
updated store, it returns `Terminated` carrying a `BroadcastOutput` whose
inner message has the leader as sender and the common payload bytes when
all recorded votes are byte-identical, and fails with `ProtocolError` when
they are not; while some other id's vote is missing it returns
`Incomplete`. -/
theorem broadcast_tally_characterization (st : BroadcastParticipant) (data : BroadcastData)
    (sid : Identifier) (voter : Pid)
    (h0 : lookupVotes st.votes (sid, ⟨data.tag, data.leader, voter⟩) = none)
    (hn : st.other_participant_ids ≠ []) :
    (∀ v, (∀ oid ∈ st.other_participant_ids,
        lookupVotes (((sid, ⟨data.tag, data.leader, voter⟩), data.data) :: st.votes)
          (sid, ⟨data.tag, data.leader, oid⟩) = some v) →
      st.process_vote data sid voter =
        ({ st with votes := ((sid, ⟨data.tag, data.leader, voter⟩), data.data) :: st.votes },
          .ok (.Terminated ⟨data.tag,
            ⟨data.message_type, sid, data.leader, st.id, .bytes v⟩⟩))) ∧
    ((∀ oid ∈ st.other_participant_ids,
        (lookupVotes (((sid, ⟨data.tag, data.leader, voter⟩), data.data) :: st.votes)
          (sid, ⟨data.tag, data.leader, oid⟩)).isSome) →
      (∃ o1 ∈ st.other_participant_ids, ∃ o2 ∈ st.other_participant_ids,
        lookupVotes (((sid, ⟨data.tag, data.leader, voter⟩), data.data) :: st.votes)
            (sid, ⟨data.tag, data.leader, o1⟩) ≠
          lookupVotes (((sid, ⟨data.tag, data.leader, voter⟩), data.data) :: st.votes)
            (sid, ⟨data.tag, data.leader, o2⟩)) →
      st.process_vote data sid voter =
        ({ st with votes := ((sid, ⟨data.tag, data.leader, voter⟩), data.data) :: st.votes },
          .error .ProtocolError)) ∧
    ((∃ oid ∈ st.other_participant_ids,
        lookupVotes (((sid, ⟨data.tag, data.leader, voter⟩), data.data) :: st.votes)
          (sid, ⟨data.tag, data.leader, oid⟩) = none) →
      st.process_vote data sid voter =
        ({ st with votes := ((sid, ⟨data.tag, data.leader, voter⟩), data.data) :: st.votes },
          .ok .Incomplete)) := by
  set votes' : VoteStore :=
    ((sid, ⟨data.tag, data.leader, voter⟩), data.data) :: st.votes with hv
  set lk : Pid → Option Bytes :=
    fun oid => lookupVotes votes' (sid, ⟨data.tag, data.leader, oid⟩) with hlk
  have hunfold : st.process_vote data sid voter =
      match collectAll lk st.other_participant_ids with
      | none => ({ st with votes := votes' }, .ok .Incomplete)
      | some redispersed_messages =>
        match redispersed_messages.find?
            (fun k => redispersed_messages.count k = st.other_participant_ids.length) with
        | some k =>
          ({ st with votes := votes' },
            .ok (.Terminated ⟨data.tag, ⟨data.message_type, sid, data.leader, st.id, .bytes k⟩⟩))
        | none => ({ st with votes := votes' }, .error .ProtocolError) := by
    unfold BroadcastParticipant.process_vote
    simp only [h0, Option.isSome_none, Bool.false_eq_true, if_false]
  refine ⟨?_, ?_, ?_⟩
  · intro v hall
    have hc : collectAll lk st.other_participant_ids =
        some (st.other_participant_ids.map (fun _ => v)) :=
      collectAll_eq_some lk (fun _ => v) st.other_participant_ids hall
    have hrep : st.other_participant_ids.map (fun _ => v) =
        List.replicate st.other_participant_ids.length v := by
      simp [List.map_const]
    have hfind := find?_count_replicate st.other_participant_ids.length v (by
      cases h : st.other_participant_ids with
      | nil => exact absurd h hn
      | cons a l => simp [h])
    rw [hunfold]
    simp only [hc, hrep, hfind]
  · intro hall ⟨o1, ho1, o2, ho2, hdiff⟩
    have hall' : ∀ a ∈ st.other_participant_ids, (lk a).isSome = true := hall
    have hdiff' : lk o1 ≠ lk o2 := hdiff
    have hg : ∀ a ∈ st.other_participant_ids, lk a = some ((lk a).getD []) := by
      intro a ha
      have hs := hall' a ha
      cases h : lk a with
      | none => rw [h] at hs; simp at hs
      | some w => simp
    have hc : collectAll lk st.other_participant_ids =
        some (st.other_participant_ids.map (fun a => (lk a).getD [])) :=
      collectAll_eq_some lk (fun a => (lk a).getD []) st.other_participant_ids hg
    have hne : (lk o1).getD [] ≠ (lk o2).getD [] := by
      intro heq
      apply hdiff'
      rw [hg o1 ho1, hg o2 ho2, heq]
    have hm1 : (lk o1).getD [] ∈ st.other_participant_ids.map (fun a => (lk a).getD []) :=
      List.mem_map_of_mem _ ho1
    have hm2 : (lk o2).getD [] ∈ st.other_participant_ids.map (fun a => (lk a).getD []) :=
      List.mem_map_of_mem _ ho2
    have hfind : (st.other_participant_ids.map (fun a => (lk a).getD [])).find?
        (fun k => (st.other_participant_ids.map (fun a => (lk a).getD [])).count k =
          st.other_participant_ids.length) = none := by
      rw [List.find?_eq_none]
      intro x _
      have hlt : (st.other_participant_ids.map (fun a => (lk a).getD [])).count x <
          st.other_participant_ids.length := by
        rcases Classical.em ((lk o1).getD [] = x) with h1 | h1
        · have h2 : (lk o2).getD [] ≠ x := fun h2 => hne (h1.trans h2.symm)
          have := count_lt_length_of_mem_ne _ _ x hm2 h2
          simpa using this
        · have := count_lt_length_of_mem_ne _ _ x hm1 h1
          simpa using this
      simp
      omega
    rw [hunfold]
    simp only [hc, hfind]
  · intro ⟨oid, hoid, hnone⟩
    have hc : collectAll lk st.other_participant_ids = none :=
      collectAll_eq_none lk st.other_participant_ids oid hoid hnone
    rw [hunfold]
    simp only [hc]

theorem broadcast_tally_characterization_witness :
    lookupVotes (([] : VoteStore)) (5, ⟨.KeyGenR1CommitHash, 1, 1⟩) = none ∧
    (⟨0, [1], [], []⟩ : BroadcastParticipant).other_participant_ids ≠ [] ∧
    BroadcastParticipant.process_vote ⟨0, [1], [], []⟩
        ⟨1, .KeyGenR1CommitHash, .Keygen .R1CommitHash, [9]⟩ 5 1 =
      (⟨0, [1], [((5, ⟨.KeyGenR1CommitHash, 1, 1⟩), [9])], []⟩,
        .ok (.Terminated ⟨.KeyGenR1CommitHash,
          ⟨.Keygen .R1CommitHash, 5, 1, 0, .bytes [9]⟩⟩)) :=
  ⟨by decide, by decide,
    (broadcast_tally_characterization ⟨0, [1], [], []⟩
      ⟨1, .KeyGenR1CommitHash, .Keygen .R1CommitHash, [9]⟩ 5 1
      (by decide) (by decide)).1 [9] (by decide)⟩

/-- C7: an already-present `BroadcastIndex` makes `process_vote` return
`Incomplete` with the participant state unchanged, so duplicate deliveries
never alter stored votes or the eventual tally. -/
theorem broadcast_duplicate_vote_ignored (st : BroadcastParticipant) (data : BroadcastData)
    (sid : Identifier) (voter : Pid)
    (h : (lookupVotes st.votes (sid, ⟨data.tag, data.leader, voter⟩)).isSome) :
    st.process_vote data sid voter = (st, .ok .Incomplete) := by
  unfold BroadcastParticipant.process_vote
  simp [h]

theorem broadcast_duplicate_vote_ignored_witness :
    ((lookupVotes [((5, ⟨.KeyGenR1CommitHash, 1, 1⟩), [9])]
        (5, ⟨.KeyGenR1CommitHash, 1, 1⟩)).isSome = true) ∧
    BroadcastParticipant.process_vote
        ⟨0, [1], [((5, ⟨.KeyGenR1CommitHash, 1, 1⟩), [9])], []⟩
        ⟨1, .KeyGenR1CommitHash, .Keygen .R1CommitHash, [42]⟩ 5 1 =
      (⟨0, [1], [((5, ⟨.KeyGenR1CommitHash, 1, 1⟩), [9])], []⟩, .ok .Incomplete) :=
  ⟨by decide,
    broadcast_duplicate_vote_ignored
      ⟨0, [1], [((5, ⟨.KeyGenR1CommitHash, 1, 1⟩), [9])], []⟩
      ⟨1, .KeyGenR1CommitHash, .Keygen .R1CommitHash, [42]⟩ 5 1 (by decide)⟩

theorem with_messages_nil {O : Type} (o : ProcessOutcome O) : o.with_messages [] = o := by
  cases o <;> rfl

theorem process_vote_ok_messages (st : BroadcastParticipant) (data : BroadcastData)
    (sid : Identifier) (voter : Pid) (o : ProcessOutcome BroadcastOutput)
    (h : (st.process_vote data sid voter).2 = .ok o) : o.messages = [] := by
  simp only [BroadcastParticipant.process_vote] at h
  split at h
  · cases h
    rfl
  · split at h
    · cases h
      rfl
    · split at h
      · cases h
        rfl
      · cases h

theorem process_vote_fst (st : BroadcastParticipant) (data : BroadcastData)
    (sid : Identifier) (voter : Pid) :
    (st.process_vote data sid voter).1 = st ∨
    (st.process_vote data sid voter).1 =
      { st with votes := ((sid, ⟨data.tag, data.leader, voter⟩), data.data) :: st.votes } := by
  simp only [BroadcastParticipant.process_vote]
  split
  · left; rfl
  · split
    · right; rfl
    · split
      · right; rfl
      · right; rfl

theorem process_vote_preserves (st : BroadcastParticipant) (data : BroadcastData)
    (sid : Identifier) (voter : Pid) :
    (st.process_vote data sid voter).1.id = st.id ∧
    (st.process_vote data sid voter).1.other_participant_ids = st.other_participant_ids ∧
    (st.process_vote data sid voter).1.dispersed_tags = st.dispersed_tags := by
  rcases process_vote_fst st data sid voter with h | h <;> rw [h] <;> exact ⟨rfl, rfl, rfl⟩

/-- C6 (amended): handling a `Disperse` whose `(session, tag)` has not been
handled before, when vote processing does not abort, emits `Redisperse`
messages carrying the same `BroadcastData` to exactly the other
participants minus the message's sender (`message.from()` — not the
embedded leader, which the source never consults here), and handling one
whose `(session, tag)` was already handled emits nothing. -/
theorem broadcast_redisperse_once_to_others_minus_sender (st : BroadcastParticipant)
    (message : Message) (data : BroadcastData)
    (hpay : message.payload = .broadcastData data) :
    ((message.session_id, data.tag) ∉ st.dispersed_tags →
      ∀ outcome, (st.process_vote data message.session_id message.sender).2 = .ok outcome →
      st.handle_round_one_msg message =
        ({ (st.process_vote data message.session_id message.sender).1 with
            dispersed_tags := (message.session_id, data.tag) ::
              (st.process_vote data message.session_id message.sender).1.dispersed_tags },
          .ok (outcome.with_messages
            ((st.other_participant_ids.filter (fun i => i ≠ message.sender)).map
              (fun oid => ⟨.Broadcast .Redisperse, message.session_id, st.id, oid,
                .broadcastData data⟩))))) ∧
    ((message.session_id, data.tag) ∈ st.dispersed_tags →
      ∀ st2 out, st.handle_round_one_msg message = (st2, .ok out) →
        out.messages = [] ∧ st2.dispersed_tags = st.dispersed_tags) := by
  have hfrom : BroadcastData.from_message message = .ok data := by
    unfold BroadcastData.from_message
    rw [hpay]
  obtain ⟨hid, hothers, hdisp⟩ :=
    process_vote_preserves st data message.session_id message.sender
  constructor
  · intro hmem outcome hvote
    rcases hpv : st.process_vote data message.session_id message.sender with ⟨st1, voteRes⟩
    rw [hpv] at hvote hid hothers hdisp
    have hvote' : voteRes = .ok outcome := hvote
    have hid' : st1.id = st.id := hid
    have hothers' : st1.other_participant_ids = st.other_participant_ids := hothers
    have hdisp' : st1.dispersed_tags = st.dispersed_tags := hdisp
    unfold BroadcastParticipant.handle_round_one_msg
    simp only [hfrom, hpv, hvote']
    rw [hdisp']
    simp only [hmem, if_false]
    unfold BroadcastParticipant.gen_round_two_msgs
    simp only [hfrom, hid', hothers']
  · intro hmem st2 out heq
    rcases hpv : st.process_vote data message.session_id message.sender with ⟨st1, voteRes⟩
    have hdisp' : st1.dispersed_tags = st.dispersed_tags := by
      rw [hpv] at hdisp
      exact hdisp
    unfold BroadcastParticipant.handle_round_one_msg at heq
    simp only [hfrom, hpv] at heq
    cases voteRes with
    | error e => simp at heq
    | ok o =>
      rw [hdisp'] at heq
      simp only [hmem, if_true] at heq
      have hst2 : st1 = st2 := congrArg Prod.fst heq
      have hout : (Except.ok (o.with_messages []) :
          Except InternalError (ProcessOutcome BroadcastOutput)) = .ok out :=
        congrArg Prod.snd heq
      have houtv : o.with_messages [] = out := by injection hout
      have houto : o = out := by rw [← houtv, with_messages_nil]
      subst hst2
      subst houto
      exact ⟨process_vote_ok_messages st data message.session_id message.sender o
        (by rw [hpv]), hdisp'⟩

theorem broadcast_redisperse_once_witness :
    ((5, BroadcastTag.KeyGenR1CommitHash) ∉
      (⟨0, [1, 2], [], []⟩ : BroadcastParticipant).dispersed_tags) ∧
    BroadcastParticipant.handle_round_one_msg ⟨0, [1, 2], [], []⟩
        ⟨.Broadcast .Disperse, 5, 1, 0,
          .broadcastData ⟨2, .KeyGenR1CommitHash, .Keygen .R1CommitHash, [7]⟩⟩ =
      (⟨0, [1, 2], [((5, ⟨.KeyGenR1CommitHash, 2, 1⟩), [7])], [(5, .KeyGenR1CommitHash)]⟩,
        .ok (.Processed [⟨.Broadcast .Redisperse, 5, 0, 2,
          .broadcastData ⟨2, .KeyGenR1CommitHash, .Keygen .R1CommitHash, [7]⟩⟩])) :=
  ⟨by decide,
    (broadcast_redisperse_once_to_others_minus_sender ⟨0, [1, 2], [], []⟩
        ⟨.Broadcast .Disperse, 5, 1, 0,
          .broadcastData ⟨2, .KeyGenR1CommitHash, .Keygen .R1CommitHash, [7]⟩⟩
        ⟨2, .KeyGenR1CommitHash, .Keygen .R1CommitHash, [7]⟩ rfl).1
      (by decide) .Incomplete rfl⟩

/-- C6 counterexample: a `Disperse` whose sender differs from the embedded
leader. The code redisperses to the other participants minus the sender
(here, participant 2 only), while the claim demands the other participants
minus the embedded leader (here, participant 1 only). -/
theorem broadcast_redisperse_counterexample :
    ((BroadcastParticipant.handle_round_one_msg ⟨0, [1, 2], [], []⟩
        ⟨.Broadcast .Disperse, 5, 1, 0,
          .broadcastData ⟨2, .KeyGenR1CommitHash, .Keygen .R1CommitHash, [7]⟩⟩).2 =
      .ok (.Processed [⟨.Broadcast .Redisperse, 5, 0, 2,
        .broadcastData ⟨2, .KeyGenR1CommitHash, .Keygen .R1CommitHash, [7]⟩⟩])) ∧
    (([1, 2] : List Pid).filter (fun i => i ≠ 2) = [1]) ∧
    ((⟨.Broadcast .Redisperse, 5, 0, 2,
        .broadcastData ⟨2, .KeyGenR1CommitHash, .Keygen .R1CommitHash, [7]⟩⟩ : Message).recipient
      ∉ ([1] : List Pid)) :=
  ⟨rfl, rfl, by decide⟩

/-! ## PiLog lemmas and claims -/

theorem pilogVerify_ok_iff (E : PiLogEnv) (ELL EPSILON : Nat) (input : PiLogCommonInput E)
    (pf : PiLogProofS E) :
    pilogVerify E ELL EPSILON input pf = .ok () ↔
      (generate_challenge E input pf.plaintext_commit pf.mask_ciphertext pf.mask_dlog_commit
          pf.mask_commit = pf.challenge ∧
        E.ctEq (E.encrypt_with_nonce pf.plaintext_response pf.nonce_response)
          (E.multiply_and_add pf.challenge input.ciphertext pf.mask_ciphertext) = true ∧
        E.ptEq (E.smul input.generator pf.plaintext_response)
          (E.ptAdd pf.mask_dlog_commit (E.smul input.dlog_commit pf.challenge)) = true ∧
        E.cmEq (E.reconstruct pf.plaintext_response pf.plaintext_commit_response)
          (E.combine pf.mask_commit pf.plaintext_commit pf.challenge) = true ∧
        within_bound_by_size pf.plaintext_response (ELL + EPSILON) = true) := by
  unfold pilogVerify
  split_ifs with h1 h2 h3 h4 h5 <;> simp_all [Bool.not_eq_false] <;> tauto

theorem pilogVerify_cases (E : PiLogEnv) (ELL EPSILON : Nat) (input : PiLogCommonInput E)
    (pf : PiLogProofS E) :
    pilogVerify E ELL EPSILON input pf = .ok () ∨
      pilogVerify E ELL EPSILON input pf = .error .FailedToVerifyProof := by
  unfold pilogVerify
  split_ifs <;> simp <;> tauto

/-- C3: `PiLogProof::verify` accepts exactly when all five checks hold —
(1) the recomputed Fiat-Shamir challenge equals the stored `e`,
(2) `Enc(z1; z2)` equals `A ⊕ C^e`, (3) `g·z1 = Y + X·e`,
(4) ring-Pedersen `reconstruct(z1, z3) = D · S^e`, and
(5) `|z1| ≤ 2^{ELL+EPSILON}` — the checks being performed in this source
order; any failure produces exactly the `FailedToVerifyProof` error. -/
theorem pilog_verify_check_characterization (E : PiLogEnv) (ELL EPSILON : Nat)
    (input : PiLogCommonInput E) (pf : PiLogProofS E) :
    (pilogVerify E ELL EPSILON input pf = .ok () ↔
      (generate_challenge E input pf.plaintext_commit pf.mask_ciphertext pf.mask_dlog_commit
          pf.mask_commit = pf.challenge ∧
        E.ctEq (E.encrypt_with_nonce pf.plaintext_response pf.nonce_response)
          (E.multiply_and_add pf.challenge input.ciphertext pf.mask_ciphertext) = true ∧
        E.ptEq (E.smul input.generator pf.plaintext_response)
          (E.ptAdd pf.mask_dlog_commit (E.smul input.dlog_commit pf.challenge)) = true ∧
        E.cmEq (E.reconstruct pf.plaintext_response pf.plaintext_commit_response)
          (E.combine pf.mask_commit pf.plaintext_commit pf.challenge) = true ∧
        within_bound_by_size pf.plaintext_response (ELL + EPSILON) = true)) ∧
    (pilogVerify E ELL EPSILON input pf ≠ .ok () →
      pilogVerify E ELL EPSILON input pf = .error .FailedToVerifyProof) := by
  refine ⟨pilogVerify_ok_iff E ELL EPSILON input pf, ?_⟩
  intro h
  rcases pilogVerify_cases E ELL EPSILON input pf with h1 | h1
  · exact absurd h1 h
  · exact h1

theorem pilog_verify_check_characterization_witness :
    pilogVerify intPiLogEnv 1 1 ⟨0, 0, 1⟩
        (pilogProve intPiLogEnv ⟨0, 0, 1⟩ 0 () 0 () () ()) = .ok () :=
  (pilog_verify_check_characterization intPiLogEnv 1 1 ⟨0, 0, 1⟩
      (pilogProve intPiLogEnv ⟨0, 0, 1⟩ 0 () 0 () () ())).1.mpr
    ⟨rfl, rfl, rfl, rfl, rfl⟩

/-- C4 (amended): assuming the specification's homomorphic contracts on
the Paillier, curve and ring-Pedersen collaborators, (1) an honestly
generated proof for a well-formed input verifies whenever the masked
response `α + e·x` lands inside `± 2^{ELL+EPSILON}` (with `|x| ≤ 2^ELL`
this can only fail for boundary values of the sampled mask `α`); and
(2) for `|x| ∈ (2^{ELL+EPSILON}, 2^{ELL+EPSILON+1}]` verification fails
provided the derived Fiat-Shamir challenge `e` has `|e| ≥ 2` (as the
all-zero-challenge counterexample shows, some condition on `e` is
required: nothing in the code forces a nonzero challenge). -/
theorem pilog_roundtrip_amended (E : PiLogEnv) (ELL EPSILON : Nat)
    (hct : ∀ (e mc ma : Int) (ρc ρa : E.Nonce),
      E.ctEq (E.encrypt_with_nonce (ma + e * mc) (E.mask ρc ρa e))
        (E.multiply_and_add e (E.encrypt_with_nonce mc ρc) (E.encrypt_with_nonce ma ρa)) = true)
    (hpt : ∀ (g : E.Pt) (a b e : Int),
      E.ptEq (E.smul g (a + e * b)) (E.ptAdd (E.smul g a) (E.smul (E.smul g b) e)) = true)
    (hcm : ∀ (x α e : Int) (μ γ : E.Rand),
      E.cmEq (E.reconstruct (α + e * x) (E.maskRand μ γ e))
        (E.combine (E.commitOf α γ) (E.commitOf x μ) e) = true) :
    (∀ (input : PiLogCommonInput E) (x : Int) (ρ r : E.Nonce) (α : Int) (μ γ : E.Rand),
      input.ciphertext = E.encrypt_with_nonce x ρ →
      input.dlog_commit = E.smul input.generator x →
      x.natAbs ≤ 2 ^ ELL →
      (α + generate_challenge E input (E.commitOf x μ) (E.encrypt_with_nonce α r)
          (E.smul input.generator α) (E.commitOf α γ) * x).natAbs ≤ 2 ^ (ELL + EPSILON) →
      pilogVerify E ELL EPSILON input (pilogProve E input x ρ α r μ γ) = .ok ()) ∧
    (∀ (input : PiLogCommonInput E) (x : Int) (ρ r : E.Nonce) (α : Int) (μ γ : E.Rand),
      2 ^ (ELL + EPSILON) < x.natAbs →
      x.natAbs ≤ 2 ^ (ELL + EPSILON + 1) →
      α.natAbs ≤ 2 ^ (ELL + EPSILON) →
      2 ≤ (generate_challenge E input (E.commitOf x μ) (E.encrypt_with_nonce α r)
          (E.smul input.generator α) (E.commitOf α γ)).natAbs →
      pilogVerify E ELL EPSILON input (pilogProve E input x ρ α r μ γ) =
        .error .FailedToVerifyProof) := by
  constructor
  · intro input x ρ r α μ γ hC hX hx hrange
    rw [pilogVerify_ok_iff]
    simp only [pilogProve]
    refine ⟨by trivial, ?_, ?_, ?_, ?_⟩
    · rw [hC]
      exact hct _ x α ρ r
    · rw [hX]
      exact hpt input.generator α x _
    · exact hcm x α _ μ γ
    · simp only [within_bound_by_size]
      exact decide_eq_true hrange
  · intro input x ρ r α μ γ hx hxu hα he
    rcases pilogVerify_cases E ELL EPSILON input (pilogProve E input x ρ α r μ γ) with hok | herr
    · exfalso
      rw [pilogVerify_ok_iff] at hok
      obtain ⟨-, -, -, -, h5⟩ := hok
      simp only [pilogProve, within_bound_by_size] at h5
      have h5' := of_decide_eq_true h5
      set e := generate_challenge E input (E.commitOf x μ) (E.encrypt_with_nonce α r)
        (E.smul input.generator α) (E.commitOf α γ) with he_def
      have htri := Int.natAbs_add_le (α + e * x) (-α)
      have hsum : α + e * x + -α = e * x := by ring
      rw [hsum, Int.natAbs_neg] at htri
      have hmul : (e * x).natAbs = e.natAbs * x.natAbs := Int.natAbs_mul e x
      have h2x : 2 * x.natAbs ≤ e.natAbs * x.natAbs := Nat.mul_le_mul_right x.natAbs he
      omega
    · exact herr

theorem pilog_roundtrip_amended_witness :
    ((1 : Int).natAbs ≤ 2 ^ 1) ∧
    pilogVerify intPiLogEnv 1 1 ⟨1, 1, 1⟩
        (pilogProve intPiLogEnv ⟨1, 1, 1⟩ 1 () 0 () () ()) = .ok () := by
  refine ⟨by decide, ?_⟩
  exact (pilog_roundtrip_amended intPiLogEnv 1 1
      (by intro e mc ma ρc ρa; simp only [intPiLogEnv, beq_iff_eq]; ring)
      (by intro g a b e; simp only [intPiLogEnv, beq_iff_eq]; ring)
      (by intro x α e μ γ; simp only [intPiLogEnv, beq_iff_eq]; ring)).1
    ⟨1, 1, 1⟩ 1 () () 0 () () rfl rfl (by decide) (by decide)

/-- C4 counterexample: with the all-zero Fiat-Shamir challenge (the
transcript is an abstract collaborator; nothing in the code excludes a
zero challenge) and honest mask `α = 0`, the plaintext `x = 5` with
parameters `ELL = EPSILON = 1` satisfies `2^{ELL+EPSILON} < |x| ≤
2^{ELL+EPSILON+1}`, yet proving succeeds and the resulting proof
verifies — contradicting the claim that proving or verifying must fail
for every such `x`. -/
theorem pilog_roundtrip_counterexample :
    (2 ^ (1 + 1) < (5 : Int).natAbs ∧ (5 : Int).natAbs ≤ 2 ^ (1 + 1 + 1)) ∧
    pilogVerify intPiLogEnv 1 1 ⟨5, 5, 1⟩
        (pilogProve intPiLogEnv ⟨5, 5, 1⟩ 5 () 0 () () ()) = .ok () :=
  ⟨⟨by decide, by decide⟩, rfl⟩

/-! ## Presign round-three claims -/

/-- C10: presign round-three `Public::from_message` returns
`MisroutedMessage` for any message whose type is not
`Presign(RoundThree)`, and returns a value exactly when the message type
is right, deserialization succeeds, and the embedded PiLog proof verifies
(via `Public::verify`) — so every returned value carries a verified
proof, and any deserialization or verification failure yields an error. -/
theorem presign_round_three_from_message_characterization (E : PiLogEnv) (ELL EPSILON : Nat)
    (deser : Payload → Except InternalError (PresignRoundThreePublic E))
    (message : Message) (K : E.Ct) :
    (message.message_type ≠ .Presign .RoundThree →
      presignRoundThreeFromMessage E ELL EPSILON deser message K = .error .MisroutedMessage) ∧
    (∀ p, presignRoundThreeFromMessage E ELL EPSILON deser message K = .ok p ↔
      (message.message_type = .Presign .RoundThree ∧ deser message.payload = .ok p ∧
        p.verify E ELL EPSILON K = .ok ())) := by
  constructor
  · intro h
    unfold presignRoundThreeFromMessage
    simp [h]
  · intro p
    unfold presignRoundThreeFromMessage
    split_ifs with ht
    · simp [ht]
    · have ht' : message.message_type = .Presign .RoundThree := not_not.mp ht
      cases hd : deser message.payload with
      | error e =>
        simp [hd]
      | ok q =>
        cases hv : q.verify E ELL EPSILON K with
        | error e =>
          simp only [hd, hv]
          constructor
          · intro h
            exact absurd h (by simp)
          · rintro ⟨-, hpq, hok⟩
            have hq : q = p := by injection hpq
            subst hq
            rw [hv] at hok
            exact absurd hok (by simp)
        | ok u =>
          cases u
          simp only [hd, hv]
          constructor
          · intro h
            have hq : q = p := by injection h
            subst hq
            exact ⟨ht', rfl, hv⟩
          · rintro ⟨-, hpq, -⟩
            have hq : q = p := by injection hpq
            subst hq
            rfl

theorem presign_round_three_from_message_witness :
    presignRoundThreeFromMessage intPiLogEnv 1 1 (fun _ => .ok samplePresignPublic)
        ⟨.Presign .RoundThree, 0, 1, 2, .empty⟩ 0 = .ok samplePresignPublic :=
  ((presign_round_three_from_message_characterization intPiLogEnv 1 1
      (fun _ => .ok samplePresignPublic) ⟨.Presign .RoundThree, 0, 1, 2, .empty⟩ 0).2
    samplePresignPublic).mpr ⟨rfl, rfl, rfl⟩

/-! ## Keygen lemmas and claims -/

/-- C9: once a keygen participant's status is `TerminatedSuccessfully`,
`process_message` returns the `ProtocolAlreadyTerminated` error with the
state unchanged, and no call ever moves the status away from
`TerminatedSuccessfully` — the terminated status is absorbing. -/
theorem keygen_terminated_absorbing (env : KeygenEnv) (fresh : KeygenRound1Randomness)
    (st : KeygenParticipant) (message : Message)
    (h : st.status = .TerminatedSuccessfully) :
    KeygenParticipant.process_message env fresh st message =
      (st, .error .ProtocolAlreadyTerminated) ∧
    (∀ st2 r, KeygenParticipant.process_message env fresh st message = (st2, r) →
      st2.status = .TerminatedSuccessfully) := by
  have h1 : KeygenParticipant.process_message env fresh st message =
      (st, .error .ProtocolAlreadyTerminated) := by
    unfold KeygenParticipant.process_message
    simp [h]
  refine ⟨h1, ?_⟩
  intro st2 r heq
  rw [h1] at heq
  have h2 : st = st2 := congrArg Prod.fst heq
  rw [← h2]
  exact h

theorem keygen_terminated_absorbing_witness :
    (terminatedKeygenState.status = .TerminatedSuccessfully) ∧
    KeygenParticipant.process_message sampleKeygenEnv sampleFresh terminatedKeygenState
        ⟨.Keygen .Ready, 0, 1, 0, .empty⟩ =
      (terminatedKeygenState, .error .ProtocolAlreadyTerminated) :=
  ⟨rfl, (keygen_terminated_absorbing sampleKeygenEnv sampleFresh terminatedKeygenState
      ⟨.Keygen .Ready, 0, 1, 0, .empty⟩ rfl).1⟩

theorem xor32_getD (a : Rid) : ∀ (b : Rid), b.length = a.length → ∀ (i : Nat),
    (xor32 a b).getD i 0 = Nat.xor (a.getD i 0) (b.getD i 0) := by
  induction a with
  | nil =>
    intro b hb i
    have : b = [] := List.length_eq_zero.mp hb
    subst this
    simp only [xor32, List.zipWith_nil_right, List.getD, List.get?_nil, Option.getD_none]
    decide
  | cons x a ih =>
    intro b hb i
    cases b with
    | nil => simp at hb
    | cons y b =>
      cases i with
      | zero => rfl
      | succ j =>
        have hb' : b.length = a.length := by simpa using hb
        simpa [xor32] using ih b hb' j

theorem foldl_xor32_getD (l : List Rid) : ∀ (init : Rid), init.length = 32 →
    (∀ r ∈ l, r.length = 32) → ∀ (i : Nat),
    (l.foldl xor32 init).length = 32 ∧
    (l.foldl xor32 init).getD i 0 =
      l.foldl (fun acc r => Nat.xor acc (r.getD i 0)) (init.getD i 0) := by
  induction l with
  | nil => exact fun init hinit _ i => ⟨hinit, rfl⟩
  | cons r rest ih =>
    intro init hinit hl i
    have hr : r.length = 32 := hl r (by simp)
    have hlen : (xor32 init r).length = 32 := by
      simp [xor32, List.length_zipWith, hinit, hr]
    have hrec := ih (xor32 init r) hlen (fun s hs => hl s (by simp [hs])) i
    refine ⟨hrec.1, ?_⟩
    rw [List.foldl_cons, List.foldl_cons, hrec.2,
      xor32_getD init r (by rw [hinit, hr]) i]

theorem collectRids_eq_some (dec : List (Pid × KeygenDecommit)) (decf : Pid → KeygenDecommit)
    (l : List Pid) (h : ∀ p ∈ l, slookup dec p = some (decf p)) :
    collectRids dec l = some (l.map (fun p => (decf p).rid)) := by
  induction l with
  | nil => rfl
  | cons p rest ih =>
    simp only [collectRids, h p (by simp)]
    rw [ih (fun q hq => h q (by simp [hq]))]
    rfl

/-- C5: `gen_round_three_msgs` stores `GlobalRid(self)` equal to the
bytewise XOR of the local decommitment's 32-byte rid with the rid of
every other participant's stored decommitment, and the `rid` of the
terminal `Output` produced by `handle_round_three_msg` at successful
termination equals the stored global rid. -/
theorem keygen_global_rid_is_xor (env : KeygenEnv) (st : KeygenParticipant)
    (decf : Pid → KeygenDecommit)
    (hdec : ∀ p ∈ st.id :: st.other_participant_ids, slookup st.decommits p = some (decf p))
    (hlen : ∀ p ∈ st.id :: st.other_participant_ids, (decf p).rid.length = 32) :
    (∃ G, (KeygenParticipant.gen_round_three_msgs env st).1.global_rid = some G ∧
      ∀ i, G.getD i 0 =
        st.other_participant_ids.foldl (fun acc o => Nat.xor acc ((decf o).rid.getD i 0))
          ((decf st.id).rid.getD i 0)) ∧
    (∀ st2 message st3 out,
      KeygenParticipant.handle_round_three_msg env st2 message = (st3, .ok (.Terminated out)) →
      st2.global_rid = some out.rid) := by
  constructor
  · have hrids : collectRids st.decommits st.other_participant_ids =
        some (st.other_participant_ids.map (fun p => (decf p).rid)) :=
      collectRids_eq_some st.decommits decf st.other_participant_ids
        (fun p hp => hdec p (by simp [hp]))
    have hself : slookup st.decommits st.id = some (decf st.id) := hdec st.id (by simp)
    refine ⟨(st.other_participant_ids.map (fun p => (decf p).rid)).foldl xor32
        (decf st.id).rid, ?_, ?_⟩
    · unfold KeygenParticipant.gen_round_three_msgs
      simp only [hrids, hself]
      split
      · rfl
      · rfl
    · intro i
      have hfold := foldl_xor32_getD (st.other_participant_ids.map (fun p => (decf p).rid))
        (decf st.id).rid (hlen st.id (by simp))
        (by
          intro r hr
          obtain ⟨p, hp, rfl⟩ := List.mem_map.mp hr
          exact hlen p (by simp [hp])) i
      rw [hfold.2, List.foldl_map]
  · intro st2 message st3 out heq
    unfold KeygenParticipant.handle_round_three_msg at heq
    cases hg : st2.global_rid with
    | none =>
      simp only [hg] at heq
      exact absurd (congrArg Prod.snd heq) (by simp)
    | some g =>
      simp only [hg] at heq
      cases hpay : message.payload with
      | empty =>
        simp only [hpay] at heq
        exact absurd (congrArg Prod.snd heq) (by simp)
      | bytes bs =>
        simp only [hpay] at heq
        exact absurd (congrArg Prod.snd heq) (by simp)
      | broadcastData d =>
        simp only [hpay] at heq
        exact absurd (congrArg Prod.snd heq) (by simp)
      | decommit d =>
        simp only [hpay] at heq
        exact absurd (congrArg Prod.snd heq) (by simp)
      | wrappedBroadcast bt d =>
        simp only [hpay] at heq
        exact absurd (congrArg Prod.snd heq) (by simp)
      | schnorrProof proof =>
        simp only [hpay] at heq
        cases hdec2 : slookup st2.decommits message.sender with
        | none =>
          simp only [hdec2] at heq
          exact absurd (congrArg Prod.snd heq) (by simp)
        | some decom =>
          simp only [hdec2] at heq
          by_cases hv : env.pischVerify proof decom.pk g = false
          · rw [if_pos hv] at heq
            exact absurd (congrArg Prod.snd heq) (by simp)
          · rw [if_neg hv] at heq
            split at heq
            · split at heq
              · have h2 := congrArg Prod.snd heq
                injection h2 with h3
                injection h3 with h4
                rw [← h4]
              · exact absurd (congrArg Prod.snd heq) (by simp)
            · exact absurd (congrArg Prod.snd heq) (by simp)

theorem keygen_global_rid_is_xor_witness :
    (∀ p ∈ roundThreeReadyState.id :: roundThreeReadyState.other_participant_ids,
      slookup roundThreeReadyState.decommits p =
        some (if p = 0 then sampleDecommit0 else sampleDecommit1)) ∧
    (∃ G, (KeygenParticipant.gen_round_three_msgs sampleKeygenEnv
          roundThreeReadyState).1.global_rid = some G ∧
      ∀ i, G.getD i 0 =
        roundThreeReadyState.other_participant_ids.foldl
          (fun acc o => Nat.xor acc
            ((if o = 0 then sampleDecommit0 else sampleDecommit1).rid.getD i 0))
          ((if roundThreeReadyState.id = 0 then sampleDecommit0 else
            sampleDecommit1).rid.getD i 0)) :=
  ⟨by decide, (keygen_global_rid_is_xor sampleKeygenEnv roundThreeReadyState
      (fun p => if p = 0 then sampleDecommit0 else sampleDecommit1)
      (by decide) (by decide)).1⟩

theorem handle_round_three_preserves_decommits (env : KeygenEnv) (st : KeygenParticipant)
    (m : Message) :
    (KeygenParticipant.handle_round_three_msg env st m).1.decommits = st.decommits := by
  simp only [KeygenParticipant.handle_round_three_msg]
  repeat' split
  all_goals rfl

theorem gen_round_three_preserves_decommits (env : KeygenEnv) (st : KeygenParticipant) :
    (KeygenParticipant.gen_round_three_msgs env st).1.decommits = st.decommits := by
  simp only [KeygenParticipant.gen_round_three_msgs]
  repeat' split
  all_goals rfl

theorem handleAllRoundThree_preserves_decommits (env : KeygenEnv) (l : List Message) :
    ∀ st : KeygenParticipant, (handleAllRoundThree env st l).1.decommits = st.decommits := by
  induction l with
  | nil => intro st; rfl
  | cons m rest ih =>
    intro st
    unfold handleAllRoundThree
    rcases hres : KeygenParticipant.handle_round_three_msg env st m with ⟨st1, r⟩
    have hpre : st1.decommits = st.decommits := by
      have h := handle_round_three_preserves_decommits env st m
      rw [hres] at h
      exact h
    cases r with
    | error e =>
      simp only [hres]
      exact hpre
    | ok o =>
      simp only [hres]
      rcases hrec : handleAllRoundThree env st1 rest with ⟨st2, r2⟩
      have h2 : st2.decommits = st1.decommits := by
        have h := ih st1
        rw [hrec] at h
        exact h
      cases r2 with
      | error e =>
        simp only [hrec]
        rw [h2, hpre]
      | ok os =>
        simp only [hrec]
        rw [h2, hpre]

/-- C8: keygen `handle_round_two_msg` stores `Decommit(sender)` only after
the received decommitment verifies against the stored commitment: while
some participant's `Commit` is missing the message is stashed and
`Incomplete` returned with the rest of the state unchanged; with all
commitments present, a decommitment that fails verification (hash
mismatch, or wrong embedded session or sender id) produces an error with
no state change; and on successful verification `Decommit(sender)` holds
the received decommitment in the resulting state. -/
theorem keygen_decommit_verified_before_store (env : KeygenEnv) (st : KeygenParticipant)
    (message : Message) (decom : KeygenDecommit)
    (hpay : message.payload = .decommit decom) :
    (st.all_participants.all (fun p => scontains st.commits p) = false →
      KeygenParticipant.handle_round_two_msg env st message =
        ({ st with stash := st.stash ++ [message] }, .ok .Incomplete)) ∧
    (st.all_participants.all (fun p => scontains st.commits p) = true →
      ∀ com, slookup st.commits message.sender = some com →
        (¬ (env.hashCommit decom = com ∧ decom.session_id = message.session_id ∧
            decom.sender_id = message.sender) →
          KeygenParticipant.handle_round_two_msg env st message = (st, .error .ProtocolError)) ∧
        ((env.hashCommit decom = com ∧ decom.session_id = message.session_id ∧
            decom.sender_id = message.sender) →
          slookup (KeygenParticipant.handle_round_two_msg env st message).1.decommits
            message.sender = some decom)) := by
  constructor
  · intro h
    unfold KeygenParticipant.handle_round_two_msg
    rw [if_pos (by rw [h])]
  · intro h com hcom
    constructor
    · intro hver
      unfold KeygenParticipant.handle_round_two_msg
      rw [if_neg (by simp [h])]
      simp only [hpay, hcom]
      rw [if_neg hver]
    · intro hver
      unfold KeygenParticipant.handle_round_two_msg
      rw [if_neg (by simp [h])]
      simp only [hpay, hcom]
      rw [if_pos hver]
      have hstore : slookup (sstore st.decommits message.sender decom) message.sender =
          some decom := by
        simp [slookup, sstore]
      set st1 : KeygenParticipant :=
        { st with decommits := sstore st.decommits message.sender decom } with hst1
      have hst1d : st1.decommits = sstore st.decommits message.sender decom := by rw [hst1]
      split
      · rcases hif : (if OnceKey.RoundThree ∈ st1.once_flags then
            (st1, Except.ok ([] : List Message))
          else KeygenParticipant.gen_round_three_msgs env
            { st1 with once_flags := .RoundThree :: st1.once_flags }) with ⟨st2, res3⟩
        have hst2 : st2.decommits = st1.decommits := by
          by_cases hfl : OnceKey.RoundThree ∈ st1.once_flags
          · rw [if_pos hfl] at hif
            have hx : st1 = st2 := congrArg Prod.fst hif
            rw [← hx]
          · rw [if_neg hfl] at hif
            have hx : (KeygenParticipant.gen_round_three_msgs env
                { st1 with once_flags := .RoundThree :: st1.once_flags }).1 = st2 :=
              congrArg Prod.fst hif
            have hg := gen_round_three_preserves_decommits env
              { st1 with once_flags := .RoundThree :: st1.once_flags }
            rw [hx] at hg
            exact hg
        simp only [hif]
        cases res3 with
        | error e =>
          rw [hst2, hst1d]
          exact hstore
        | ok round_three_messages =>
          rcases hall : handleAllRoundThree env
              { st2 with stash := st2.stash.filter (fun m => ¬ (m.message_type = .Keygen .R3Proof)) }
              (st2.stash.filter (fun m => m.message_type = .Keygen .R3Proof)) with ⟨st4, r4⟩
          have hst4 : st4.decommits = st2.decommits := by
            have hp := handleAllRoundThree_preserves_decommits env
              (st2.stash.filter (fun m => m.message_type = .Keygen .R3Proof))
              { st2 with stash := st2.stash.filter (fun m => ¬ (m.message_type = .Keygen .R3Proof)) }
            rw [hall] at hp
            exact hp
          simp only [hall]
          cases r4 with
          | error e =>
            rw [hst4, hst2, hst1d]
            exact hstore
          | ok outcomes =>
            rw [hst4, hst2, hst1d]
            exact hstore
      · rw [hst1d]
        exact hstore

theorem keygen_decommit_verified_before_store_witness :
    (roundTwoReadyState.all_participants.all
      (fun p => scontains roundTwoReadyState.commits p) = true) ∧
    slookup roundTwoReadyState.commits 1 = some [] ∧
    (sampleKeygenEnv.hashCommit sampleDecommit1 = [] ∧ sampleDecommit1.session_id = 0 ∧
      sampleDecommit1.sender_id = 1) ∧
    slookup (KeygenParticipant.handle_round_two_msg sampleKeygenEnv roundTwoReadyState
        ⟨.Keygen .R2Decommit, 0, 1, 0, .decommit sampleDecommit1⟩).1.decommits 1 =
      some sampleDecommit1 :=
  ⟨by decide, by decide, by decide,
    (((keygen_decommit_verified_before_store sampleKeygenEnv roundTwoReadyState
          ⟨.Keygen .R2Decommit, 0, 1, 0, .decommit sampleDecommit1⟩ sampleDecommit1 rfl).2
        (by decide)) [] (by decide)).2 (by decide)⟩

end TssEcdsa
